import Mathlib

/-!
Verification development for the chat-bot gateway core
(session tool-result guard, Feishu inbound gate, in-flight task store,
status reactions, announce queue).

Each definition is a shallow embedding of one source function, translated
directly from the TypeScript source.  JavaScript strings are modelled as
Lean `String` (sequences of Unicode scalar values; all string literals the
code manipulates are BMP-only, where JS UTF-16 lengths and scalar counts
coincide).  JS numbers used as sizes, counters and epoch-millisecond
timestamps are modelled as `Nat`/`Int`.  Asynchronous provider calls are
modelled by explicit outcome arguments (oracle style): a call that can
fail is represented by an `Option`/`Except` result handed to the pure
function, and the function's effects are returned as explicit lists.
-/

namespace Guard

/-- A content block of an agent message.  The guard only distinguishes
`type == "text"` blocks with a string `text` field from everything else
(source: the `content.filter` in `getToolResultTextBlocks` and the
`block.type !== "text"` checks in `capToolResultSize`). -/
inductive Block
  | text (s : String)
  | nonText
deriving DecidableEq, Repr

/-- A tool call extracted from an assistant message (id and tool name). -/
structure ToolCall where
  id : String
  name : String
deriving DecidableEq, Repr

/-- Shallow embedding of `AgentMessage`, restricted to the fields the
guard inspects: the role, an assistant's tool calls, and a tool result's
`toolCallId`, `toolName`, `isError`, `isSynthetic` and content blocks.
All other roles (user, system, ...) are collapsed into `other`. -/
inductive GMsg
  | assistant (toolCalls : List ToolCall)
  | toolResult (toolCallId : Option String) (toolName : Option String)
      (isError : Bool) (isSynthetic : Bool) (content : List Block)
  | other
deriving DecidableEq, Repr

/-- `GUARD_TRUNCATION_SUFFIX` from the source (the two concatenated
string literals). -/
def GUARD_TRUNCATION_SUFFIX : String :=
  "\n\n⚠️ [Content truncated during persistence — original exceeded size limit. Use offset/limit parameters or request specific sections for large content.]"

/-- `RECOVERABLE_ERROR_HINT_PREFIX` from the source. -/
def RECOVERABLE_ERROR_HINT_PREFIX : String := "\n\n[RECOVERABLE_TOOL_ERROR]"

/-- Length in characters of one block (`text.length`); non-text blocks
contribute nothing, as in the source's total-size loop. -/
def blockTextLen : Block → Nat
  | .text s => s.length
  | .nonText => 0

/-- `totalTextChars` accumulated over a content array
(source: the size loop of `capToolResultSize`). -/
def totalTextChars (content : List Block) : Nat :=
  (content.map blockTextLen).sum

/-- Number of text blocks in a content array. -/
def numTextBlocks (content : List Block) : Nat :=
  (content.filter fun b => match b with | .text _ => true | .nonText => false).length

/-- The scan behind `lastNewlineUpTo`: walk the characters keeping the
index of the last `'\n'` seen at or before `pos`. -/
def lastNewlineScan (pos : Nat) : List Char → Nat → Option Nat → Option Nat
  | [], _, acc => acc
  | c :: rest, i, acc =>
    if i > pos then acc
    else lastNewlineScan pos rest (i + 1) (if c = '\n' then some i else acc)

/-- JS `text.lastIndexOf("\n", pos)`: the largest index `i ≤ pos` with
`text[i] = '\n'`, as `some i`, or `none` (JS `-1`) when there is none. -/
def lastNewlineUpTo (cs : List Char) (pos : Nat) : Option Nat :=
  lastNewlineScan pos cs 0 none

/-- The cut point chosen by `capToolResultSize` for one oversized block:
start from the block budget, and move back to the last newline at or
before the budget when that newline lies in the last 20% of the budget
(JS `lastNewline > blockBudget * 0.8`, modelled exactly as
`5 * lastNewline > 4 * blockBudget`; the budget is always ≥ 2000, so the
float comparison of the source and this integer comparison agree). -/
def cutPointFor (s : String) (blockBudget : Nat) : Nat :=
  match lastNewlineUpTo s.data blockBudget with
  | none => blockBudget
  | some lastNewline =>
    if 5 * lastNewline > 4 * blockBudget then lastNewline else blockBudget

/-- The per-block budget of `capToolResultSize`:
`Math.max(2000, Math.floor(hardMax * (len / total)) - suffix.length)`.
`Math.floor(hardMax * share)` is modelled as the integer quotient
`hardMax * len / total`; the subtraction is `Nat` truncated subtraction,
which agrees with the JS value because the result is clamped below by
2000 ≥ 0. -/
def blockBudgetFor (hardMax total len : Nat) : Nat :=
  max 2000 (hardMax * len / total - GUARD_TRUNCATION_SUFFIX.length)

/-- The body of the `content.map` of `capToolResultSize`: non-text
blocks and blocks within their budget pass through; oversized text
blocks are cut and get the truncation suffix. -/
def cappedBlock (hardMax total : Nat) : Block → Block
  | .nonText => .nonText
  | .text s =>
    let blockBudget := blockBudgetFor hardMax total s.length
    if s.length ≤ blockBudget then .text s
    else .text (⟨s.data.take (cutPointFor s blockBudget)⟩ ++ GUARD_TRUNCATION_SUFFIX)

/-- `capToolResultSize` from the source, with the imported constant
`HARD_MAX_TOOL_RESULT_CHARS` passed explicitly as `hardMax` (the spec
lists it among the recognized configuration values).  Truncates oversized
text blocks of a tool result; other roles and under-limit messages are
returned unchanged. -/
def capToolResultSize (hardMax : Nat) (msg : GMsg) : GMsg :=
  match msg with
  | .toolResult tcId tName isErr isSyn content =>
    let total := totalTextChars content
    if total ≤ hardMax then msg
    else .toolResult tcId tName isErr isSyn (content.map (cappedBlock hardMax total))
  | _ => msg

/-- Whether one string occurs inside another (used for
`existingText.includes(...)` and the substring assertions of the
spec). -/
def containsSubstr (s sub : String) : Bool :=
  go s.data
where
  go : List Char → Bool
    | [] => sub.data.isEmpty
    | c :: rest => sub.data.isPrefixOf (c :: rest) || go rest

/-- `appendToolResultHint` from the source: append one text block to a
tool result's content; other roles unchanged. -/
def appendToolResultHint (msg : GMsg) (hint : String) : GMsg :=
  match msg with
  | .toolResult tcId tName isErr isSyn content =>
    .toolResult tcId tName isErr isSyn (content ++ [.text hint])
  | _ => msg

/-- Metadata handed to the tool-result persistence path
(`{ toolCallId?, toolName?, isSynthetic? }`). -/
structure ToolResultMeta where
  toolCallId : Option String
  toolName : Option String
  isSynthetic : Bool
deriving DecidableEq, Repr

/-- The hint text appended by `annotateRecoverableToolErrors` for an
edit exact-match failure.  The JSON payload line is abstracted into its
rendered pieces; the markers the tests and spec look for
(`[RECOVERABLE_TOOL_ERROR]`, `EDIT_EXACT_MATCH_NOT_FOUND`, the path)
are kept verbatim. -/
def editExactMatchHint (filePath : Option String) : String :=
  RECOVERABLE_ERROR_HINT_PREFIX ++ "\nkind: EDIT_EXACT_MATCH_NOT_FOUND"
    ++ (match filePath with
        | some p => "\npath: " ++ p
        | none => "")
    ++ "\nrecovery_payload_json:"

/-- The literal tested by `/Could not find the exact text\b/i`.  The
regex test and capture group are modelled as a case-sensitive substring
search for this marker (the inputs of interest use it verbatim). -/
def editMatchNotFoundMarker : String := "Could not find the exact text"

/-- The path captured by `/Could not find the exact text in ([^\n.]+)\./i`:
the characters after `"... in "` up to (excluding) the next `'.'`,
provided that segment contains neither `'\n'` nor is empty and is
followed by a `'.'`. -/
def extractEditErrorPath (text : String) : Option String :=
  let parts := text.splitOn "Could not find the exact text in "
  match parts with
  | _ :: rest :: _ =>
    let seg := rest.data.takeWhile fun c => c ≠ '.' ∧ c ≠ '\n'
    if seg.isEmpty then none
    else
      match rest.data.drop seg.length with
      | '.' :: _ => some (String.mk seg).trim
      | _ => none
  | _ => none

/-- `annotateRecoverableToolErrors` from the source.  Synthetic
placeholders, non-tool-results, non-errors and already-annotated results
are returned unchanged; an `edit` failure matching the exact-match
pattern gets the structured hint appended as one more text block. -/
def annotateRecoverableToolErrors (msg : GMsg) (meta : ToolResultMeta) : GMsg :=
  if meta.isSynthetic then msg
  else match msg with
  | .toolResult _ mName isErr _ content =>
    let toolName := ((meta.toolName.getD (mName.getD "")).trim.toLower)
    if ¬ isErr then msg
    else
      let existingText :=
        String.intercalate "\n"
          ((content.filterMap fun b => match b with
              | .text s => some s
              | .nonText => none))
      if containsSubstr existingText RECOVERABLE_ERROR_HINT_PREFIX then msg
      else if toolName = "edit" ∧ containsSubstr existingText editMatchNotFoundMarker then
        appendToolResultHint msg (editExactMatchHint (extractEditErrorPath existingText))
      else msg
  | _ => msg

/-- Modelled from the spec: `makeMissingToolResult` (module
`session-transcript-repair` is not part of the provided sources).  The
spec, §4.6 step 3: "synthesize a placeholder tool-result message (marked
`isSynthetic=true`)" for a pending tool-call id. -/
def makeMissingToolResult (toolCallId : String) (toolName : Option String) : GMsg :=
  .toolResult (some toolCallId) toolName false true
    [.text ("[missing tool result for " ++ toolCallId ++ "]")]

/-- Modelled from the spec: `extractToolResultId` (module `tool-call-id`
is not part of the provided sources) — "extract its `toolCallId`"
(spec §4.6 step 2). -/
def extractToolResultId : GMsg → Option String
  | .toolResult tcId _ _ _ _ => tcId
  | _ => none

/-- Modelled from the spec: `extractToolCallsFromAssistant` (module
`tool-call-id` is not part of the provided sources) — the tool calls
carried by an assistant message (spec §4.6 step 4 records
`call.id → call.name`). -/
def extractToolCallsFromAssistant : GMsg → List ToolCall
  | .assistant cs => cs
  | _ => []

/-- The guard's `pending` map (`Map<string, string | undefined>`),
modelled as an insertion-ordered association list, matching JS `Map`
iteration order. -/
abbrev PendingMap := List (String × Option String)

/-- JS `Map.set`: update in place if the key exists, else append. -/
def mapSet (m : PendingMap) (k : String) (v : Option String) : PendingMap :=
  if m.any fun e => e.1 = k then
    m.map fun e => if e.1 = k then (k, v) else e
  else m ++ [(k, v)]

/-- JS `Map.delete`. -/
def mapDelete (m : PendingMap) (k : String) : PendingMap :=
  m.filter fun e => e.1 ≠ k

/-- JS `Map.get` (`none` when absent; the stored value is itself an
`Option String`). -/
def mapGet (m : PendingMap) (k : String) : Option (Option String) :=
  (m.find? fun e => e.1 = k).map fun e => e.2

/-- The `pending.set(call.id, call.name)` loop at the end of
`guardedAppend`. -/
def recordCalls (m : PendingMap) (cs : List ToolCall) : PendingMap :=
  cs.foldl (fun acc c => mapSet acc c.id (some c.name)) m

/-- The options of `installSessionToolResultGuard`, plus the imported
size constant.  `sanitize` stands for `sanitizeToolCallInputs` applied
to the singleton list (`none` models "sanitization yields zero
messages"); it is kept abstract because the repair module is not part of
the provided sources, and the pairing theorems hold for every such
function.  `beforeWrite` models `beforeMessageWriteHook` through
`applyBeforeWriteHook`: `none` result means blocked. -/
structure GuardOpts where
  hardMax : Nat
  allowSynthetic : Bool
  sanitize : GMsg → Option GMsg
  transformMessage : Option (GMsg → GMsg)
  transformToolResult : Option (GMsg → ToolResultMeta → GMsg)
  beforeWrite : Option (GMsg → Option GMsg)

/-- `persistMessage` from the source. -/
def persistMessage (opts : GuardOpts) (m : GMsg) : GMsg :=
  match opts.transformMessage with
  | some f => f m
  | none => m

/-- `persistToolResult` from the source: optional transform, then the
recoverable-error annotation. -/
def persistToolResult (opts : GuardOpts) (m : GMsg) (meta : ToolResultMeta) : GMsg :=
  let transformed := match opts.transformToolResult with
    | some f => f m meta
    | none => m
  annotateRecoverableToolErrors transformed meta

/-- `applyBeforeWriteHook` from the source (`none` = blocked). -/
def applyBeforeWriteHook (opts : GuardOpts) (m : GMsg) : Option GMsg :=
  match opts.beforeWrite with
  | none => some m
  | some h => h m

/-- The guard's mutable state: the pending tool-call map and the
persisted transcript (entries appended by `originalAppend`, oldest
first). -/
structure GuardState where
  pending : PendingMap
  transcript : List GMsg
deriving DecidableEq, Repr

/-- `flushPendingToolResults` from the source: synthesize (when allowed)
one placeholder tool result per pending id, persist each through the
transform/annotate/hook pipeline, and clear the pending map. -/
def flushPendingToolResults (opts : GuardOpts) (st : GuardState) : GuardState :=
  if st.pending = [] then st
  else
    { pending := [],
      transcript := st.transcript ++
        (if opts.allowSynthetic then
          st.pending.filterMap fun e =>
            applyBeforeWriteHook opts
              (persistToolResult opts (persistMessage opts (makeMissingToolResult e.1 e.2))
                ⟨some e.1, e.2, true⟩)
        else []) }

/-- The first step of `guardedAppend`: assistant messages pass through
`sanitizeToolCallInputs` (`none` = dropped); everything else is kept. -/
def sanitizedNext (opts : GuardOpts) (message : GMsg) : Option GMsg :=
  match message with
  | .assistant _ => opts.sanitize message
  | _ => some message

/-- Whether a message has role `toolResult` (the `nextRole ===
"toolResult"` test). -/
def isToolResultMsg : GMsg → Bool
  | .toolResult _ _ _ _ _ => true
  | _ => false

/-- Whether a message has role `assistant` (the `nextRole ===
"assistant"` test). -/
def isAssistantMsg : GMsg → Bool
  | .assistant _ => true
  | _ => false

/-- The `nextRole === "toolResult"` branch of `guardedAppend`: resolve
the pending tool name, drop the id from `pending`, cap the size, run the
transform/annotate/hook pipeline and persist. -/
def appendToolResultStep (opts : GuardOpts) (st : GuardState) (next : GMsg) : GuardState :=
  let id := extractToolResultId next
  let toolName : Option String :=
    match id with
    | some i => (mapGet st.pending i).getD none
    | none => none
  let pending1 := match id with
    | some i => mapDelete st.pending i
    | none => st.pending
  let capped := capToolResultSize opts.hardMax (persistMessage opts next)
  match applyBeforeWriteHook opts (persistToolResult opts capped ⟨id, toolName, false⟩) with
  | none => { pending := pending1, transcript := st.transcript }
  | some p => { pending := pending1, transcript := st.transcript ++ [p] }

/-- The remaining branch of `guardedAppend` (assistant / user / system):
flush pending ids when required, persist the message, then record its
tool calls. -/
def appendNonToolResultStep (opts : GuardOpts) (st : GuardState) (next : GMsg) : GuardState :=
  let toolCalls := extractToolCallsFromAssistant next
  let st1 :=
    if opts.allowSynthetic ∧ st.pending ≠ [] ∧ (toolCalls.isEmpty ∨ ¬ isAssistantMsg next) then
      flushPendingToolResults opts st
    else st
  let st2 :=
    if opts.allowSynthetic ∧ st1.pending ≠ [] ∧ ¬ toolCalls.isEmpty then
      flushPendingToolResults opts st1
    else st1
  match applyBeforeWriteHook opts (persistMessage opts next) with
  | none => st2
  | some finalMessage =>
    { pending := recordCalls st2.pending toolCalls,
      transcript := st2.transcript ++ [finalMessage] }

/-- `guardedAppend` from the source: the wrapped `appendMessage`. -/
def guardedAppend (opts : GuardOpts) (st : GuardState) (message : GMsg) : GuardState :=
  match sanitizedNext opts message with
  | none =>
    if opts.allowSynthetic ∧ st.pending ≠ [] then flushPendingToolResults opts st else st
  | some nextMessage =>
    if isToolResultMsg nextMessage then appendToolResultStep opts st nextMessage
    else appendNonToolResultStep opts st nextMessage

/-- Run the guard over a list of appended messages, starting from the
empty state installed by `installSessionToolResultGuard`. -/
def runGuard (opts : GuardOpts) (msgs : List GMsg) : GuardState :=
  msgs.foldl (guardedAppend opts) ⟨[], []⟩

/-! ### The pairing property -/

/-- Whether a message is a tool result answering tool-call id `c`. -/
def hasResultId (c : String) : GMsg → Bool
  | .toolResult (some i) _ _ _ _ => i = c
  | _ => false

/-- Every tool call of `cs` is answered by some message of `run`. -/
def coveredBy (cs : List ToolCall) (run : List GMsg) : Bool :=
  cs.all fun c => run.any (hasResultId c.id)

/-- The pairing condition one transcript entry imposes on its suffix:
an assistant's tool calls must be answered inside the immediately
following run of tool results, unless the transcript ends during that
run (no later non-tool-result entry exists yet). -/
def okAt (x : GMsg) (rest : List GMsg) : Bool :=
  match x with
  | .assistant cs =>
    (rest.dropWhile isToolResultMsg).isEmpty
      || coveredBy cs (rest.takeWhile isToolResultMsg)
  | _ => true

/-- Strict variant of `okAt`: even at the end of the transcript the
calls must already be answered. -/
def strictAt (x : GMsg) (rest : List GMsg) : Bool :=
  match x with
  | .assistant cs => coveredBy cs (rest.takeWhile isToolResultMsg)
  | _ => true

/-- The pairing invariant of the spec on a transcript: every assistant
tool call is answered by a tool result (real or synthetic) appearing
before the next non-tool-result entry.  An unanswered trailing assistant
with no later non-tool-result entry does not violate it. -/
def pairedOk : List GMsg → Bool
  | [] => true
  | x :: rest => okAt x rest && pairedOk rest

/-- Strict pairing: even a trailing assistant must be answered inside
the immediately following run of tool results.  Used as the inductive
invariant (the pending map closes the gap). -/
def pairedStrict : List GMsg → Bool
  | [] => true
  | x :: rest => strictAt x rest && pairedStrict rest

/-- The messages a flush of the given pending map would persist (under
default options). -/
def flushMsgs (p : PendingMap) : List GMsg :=
  p.map fun e => makeMissingToolResult e.1 e.2

/-- The inductive invariant: flushing the pending map now would leave a
strictly paired transcript. -/
def guardInv (st : GuardState) : Prop :=
  pairedStrict (st.transcript ++ flushMsgs st.pending) = true

/-- Default-configuration hypotheses: synthetic results allowed
(default), no persistence transforms, no before-write hook. -/
def plainOpts (opts : GuardOpts) : Prop :=
  opts.allowSynthetic = true ∧ opts.transformMessage = none ∧
    opts.transformToolResult = none ∧ opts.beforeWrite = none

/-- Content of a tool result (empty for other roles). -/
def msgContent : GMsg → List Block
  | .toolResult _ _ _ _ c => c
  | _ => []

/-- Total text size of a message's content blocks. -/
def msgTotalText (m : GMsg) : Nat := totalTextChars (msgContent m)

/-- A fully default guard configuration with identity sanitizer, used
for concrete runs. -/
def exampleOpts (H : Nat) : GuardOpts :=
  { hardMax := H, allowSynthetic := true, sanitize := fun m => some m,
    transformMessage := none, transformToolResult := none, beforeWrite := none }

end Guard

namespace Feishu

/-- `chat_type` of a task (`"direct" | "group"`). -/
inductive ChatType
  | direct
  | group
deriving DecidableEq, Repr

/-- `FeishuInFlightState` from `inflight-store.ts`. -/
inductive TaskState
  | received
  | queued
  | working
  | waiting
  | done
  | failed
  | interrupted
deriving DecidableEq, Repr

/-- A status reaction handle (`{emojiType, reactionId}`). -/
structure Reaction where
  emojiType : String
  reactionId : String
deriving DecidableEq, Repr

/-- `FeishuInFlightTask` from `inflight-store.ts` (the `provider` field
is the constant `"feishu"` and is omitted; optional TS fields are
`Option`). -/
structure Task where
  id : String
  accountId : String
  chatId : String
  chatType : ChatType
  userOpenId : Option String
  messageId : String
  originalText : String
  truncated : Option Bool
  state : TaskState
  reaction : Option Reaction
  runId : Option String
  resumeAttempts : Option Nat
  updatedAtMs : Int
  interruptedHandled : Option Bool
deriving DecidableEq, Repr

/-- `FeishuInFlightStore` (the `version: 1` tag is constant and
omitted); `lastInterruptibleByChatId` is an association list standing
for the JSON record. -/
structure Store where
  tasks : List Task
  lastInterruptibleByChatId : List (String × String)
deriving DecidableEq, Repr

/-- `clampOriginalText` from `inflight-store.ts`: the clamped text and
the `truncated` flag. -/
def clampOriginalText (text : String) (maxChars : Nat := 8000) : String × Bool :=
  if text.length ≤ maxChars then (text, false)
  else (⟨text.data.take maxChars⟩, true)

/-- `upsertTask` from `inflight-store.ts`: replace the first task with
the same id, else append. -/
def upsertTask (store : Store) (task : Task) : Store :=
  if store.tasks.any fun t => t.id = task.id then
    { store with tasks := store.tasks.map fun t => if t.id = task.id then task else t }
  else
    { store with tasks := store.tasks ++ [task] }

/-- `removeTask` from `inflight-store.ts`. -/
def removeTask (store : Store) (taskId : String) : Store :=
  { store with tasks := store.tasks.filter fun t => t.id ≠ taskId }

/-- `setLastInterruptible` from `inflight-store.ts`. -/
def setLastInterruptible (store : Store) (chatId taskId : String) : Store :=
  { store with lastInterruptibleByChatId :=
      (chatId, taskId) ::
        store.lastInterruptibleByChatId.filter fun e => e.1 ≠ chatId }

/-- `getLastInterruptibleTask` from `inflight-store.ts`: look up the
task id recorded for the chat, then find the task. -/
def getLastInterruptibleTask (store : Store) (chatId : String) : Option Task :=
  match (store.lastInterruptibleByChatId.find? fun e => e.1 = chatId).map (·.2) with
  | none => none
  | some id => store.tasks.find? fun t => t.id = id

/-- The fields of a `setFeishuStatus` call that matter to the store
(file paths and the provider config are orthogonal to the state
machine). -/
structure StatusArgs where
  accountId : String
  chatId : String
  chatType : ChatType
  userOpenId : Option String
  messageId : String
  taskId : String
  nextState : TaskState
  originalText : Option String
  truncated : Option Bool
deriving Repr

/-- The task record rebuilt by `setFeishuStatus` from the previous
record (if any), the call arguments and the reaction-replacement
result. -/
def statusTask (prev : Option Task) (a : StatusArgs) (now : Int)
    (reactionResult : Option Reaction) : Task :=
  let reaction : Option Reaction :=
    match reactionResult with
    | some r => some r
    | none => prev.bind (·.reaction)
  { id := a.taskId
    accountId := a.accountId
    chatId := a.chatId
    chatType := a.chatType
    userOpenId := a.userOpenId
    messageId := a.messageId
    originalText := a.originalText.getD ((prev.map (·.originalText)).getD "")
    truncated := match a.truncated with
      | some b => some b
      | none => prev.bind (·.truncated)
    state := a.nextState
    reaction := match reaction with
      | some r => some r
      | none => prev.bind (·.reaction)
    runId := prev.bind (·.runId)
    resumeAttempts := some ((prev.bind (·.resumeAttempts)).getD 0)
    updatedAtMs := now
    interruptedHandled := prev.bind (·.interruptedHandled) }

/-- `setFeishuStatus` from `bot.ts` at the store level: read the
previous task by id, try to replace the status reaction
(`reactionResult = none` models a thrown `replaceStatusReaction`, whose
error is logged and the previous reaction kept), then upsert the
rebuilt task record. -/
def setFeishuStatusStore (store : Store) (a : StatusArgs) (now : Int)
    (reactionResult : Option Reaction) : Store :=
  upsertTask store
    (statusTask (store.tasks.find? fun t => t.id = a.taskId) a now reactionResult)

/-- The inbound context fields `handleFeishuMessage` uses for the task
lifecycle. -/
structure InboundCtx where
  accountId : String
  chatId : String
  senderOpenId : String
  messageId : String
  content : String
  isGroup : Bool
deriving Repr

/-- The observable outcome of one agent dispatch
(`statusCallbacks.onReplyStart` fired; `dispatchReplyFromConfig`
returned `{queuedFinal, counts.final}`). -/
structure DispatchOutcome where
  sawReplyStart : Bool
  queuedFinal : Bool
  finalCount : Nat
deriving Repr

/-- The resume-acceptance test of `handleFeishuMessage` (the `wantsContinue`
branch): fetch `lastInterruptibleByChatId[chatId]` and accept only a
task in `{interrupted, failed}` with fewer than 2 resume attempts that —
in groups — carries no `userOpenId` or matches the sender. -/
def resumeDecision (store : Store) (ctx : InboundCtx) : Option Task :=
  match getLastInterruptibleTask store ctx.chatId with
  | none => none
  | some last =>
    if (last.state = .interrupted ∨ last.state = .failed)
        ∧ (last.resumeAttempts.getD 0) < 2
        ∧ (¬ ctx.isGroup ∨ last.userOpenId = none ∨ last.userOpenId = some ctx.senderOpenId)
    then some last else none

/-- The accepted-resume block of `handleFeishuMessage`: bump
`resumeAttempts`, mark `interruptedHandled`, re-record as last
interruptible, then move the task back to `received` via
`setFeishuStatus` on the original anchor (which keeps the stored
`originalText`). -/
def applyResume (store : Store) (ctx : InboundCtx) (last : Task) (now : Int)
    (rxnReceived : Option Reaction) : Store :=
  let resumed : Task :=
    { last with
      resumeAttempts := some ((last.resumeAttempts.getD 0) + 1)
      updatedAtMs := now
      interruptedHandled := some true }
  let s1 := setLastInterruptible (upsertTask store resumed) ctx.chatId resumed.id
  setFeishuStatusStore s1
    { accountId := ctx.accountId
      chatId := ctx.chatId
      chatType := if ctx.isGroup then .group else .direct
      userOpenId := some ctx.senderOpenId
      messageId := last.messageId
      taskId := last.id
      nextState := .received
      originalText := none
      truncated := none } now rxnReceived

/-- The new-task block of `handleFeishuMessage`: clamp the text and
create the `received` record for a fresh id anchored at the inbound
message. -/
def applyNewTask (store : Store) (ctx : InboundCtx) (freshId : String) (now : Int)
    (rxnReceived : Option Reaction) : Store :=
  let clamped := clampOriginalText ctx.content 8000
  setFeishuStatusStore store
    { accountId := ctx.accountId
      chatId := ctx.chatId
      chatType := if ctx.isGroup then .group else .direct
      userOpenId := some ctx.senderOpenId
      messageId := ctx.messageId
      taskId := freshId
      nextState := .received
      originalText := some clamped.1
      truncated := some clamped.2 } now rxnReceived

/-- The `onIdle` status callback of `handleFeishuMessage`: when a reply
was started, mark the in-flight task `done` and remove it — unless it is
already in `{done, failed, interrupted}`. -/
def onIdlePure (store : Store) (ctx : InboundCtx) (anchorMessageId taskId : String)
    (sawReplyStart : Bool) (now : Int) (rxnDone : Option Reaction) : Store :=
  if ¬ sawReplyStart then store
  else
    match store.tasks.find? fun t => t.id = taskId with
    | none => store
    | some task =>
      if task.state = .done ∨ task.state = .failed ∨ task.state = .interrupted then store
      else
        let s1 := setFeishuStatusStore store
          { accountId := ctx.accountId
            chatId := ctx.chatId
            chatType := if ctx.isGroup then .group else .direct
            userOpenId := some ctx.senderOpenId
            messageId := anchorMessageId
            taskId := taskId
            nextState := .done
            originalText := none
            truncated := none } now rxnDone
        removeTask s1 taskId

/-- The post-dispatch finalization of `handleFeishuMessage`: with no
user-visible reply, transition to `waiting` when a followup is queued,
else to `failed` and record the task as last interruptible. -/
def postDispatchPure (store : Store) (ctx : InboundCtx) (anchorMessageId taskId : String)
    (outcome : DispatchOutcome) (now : Int) (rxn : TaskState → Option Reaction) : Store :=
  if outcome.finalCount = 0 then
    if outcome.queuedFinal then
      setFeishuStatusStore store
        { accountId := ctx.accountId
          chatId := ctx.chatId
          chatType := if ctx.isGroup then .group else .direct
          userOpenId := some ctx.senderOpenId
          messageId := anchorMessageId
          taskId := taskId
          nextState := .waiting
          originalText := none
          truncated := none } now (rxn .waiting)
    else
      let s1 := setFeishuStatusStore store
        { accountId := ctx.accountId
          chatId := ctx.chatId
          chatType := if ctx.isGroup then .group else .direct
          userOpenId := some ctx.senderOpenId
          messageId := anchorMessageId
          taskId := taskId
          nextState := .failed
          originalText := none
          truncated := none } now (rxn .failed)
      setLastInterruptible s1 ctx.chatId taskId
  else store

/-- The shared tail of a `handleFeishuMessage` flow once a task id and
anchor are fixed: mark `queued`, mark `working` on the first reply,
run the `onIdle` finalization, then the post-dispatch
waiting / failed transition. -/
def runTaskFlow (s2 : Store) (ctx : InboundCtx) (taskId anchor : String)
    (outcome : DispatchOutcome) (now : Int) (rxn : TaskState → Option Reaction) : Store :=
  let s3 := setFeishuStatusStore s2
    { accountId := ctx.accountId
      chatId := ctx.chatId
      chatType := if ctx.isGroup then .group else .direct
      userOpenId := some ctx.senderOpenId
      messageId := anchor
      taskId := taskId
      nextState := .queued
      originalText := none
      truncated := none } now (rxn .queued)
  let s4 :=
    if outcome.sawReplyStart then
      setFeishuStatusStore s3
        { accountId := ctx.accountId
          chatId := ctx.chatId
          chatType := if ctx.isGroup then .group else .direct
          userOpenId := some ctx.senderOpenId
          messageId := anchor
          taskId := taskId
          nextState := .working
          originalText := none
          truncated := none } now (rxn .working)
    else s3
  let s5 := onIdlePure s4 ctx anchor taskId outcome.sawReplyStart now (rxn .done)
  postDispatchPure s5 ctx anchor taskId outcome now rxn

/-- The task-lifecycle store effect of one `handleFeishuMessage` call
past the admission gates, as a pure function of the store, the parsed
context, the classification (`wantsContinue` is `isContinueMessage`
applied to the stripped content), a fresh task id, the dispatch outcome,
and the reaction-call results (`rxn s = none` models a failed
`replaceStatusReaction` for the transition into state `s`).  When a
continue request finds no resumable task, only the guidance reply is
sent and the store is untouched. -/
def handleInboundPure (store : Store) (ctx : InboundCtx) (wantsContinue : Bool)
    (freshId : String) (outcome : DispatchOutcome) (now : Int)
    (rxn : TaskState → Option Reaction) : Store :=
  let setup : Option (Store × String × String) :=
    if wantsContinue then
      match resumeDecision store ctx with
      | none => none
      | some last =>
        some (applyResume store ctx last now (rxn .received), last.id, last.messageId)
    else
      some (applyNewTask store ctx freshId now (rxn .received), freshId, ctx.messageId)
  match setup with
  | none => store
  | some (s2, taskId, anchor) => runTaskFlow s2 ctx taskId anchor outcome now rxn

/-- `reconcileFeishuInFlight` from `bot.ts` at the store level: for each
fresh-enough unhandled task in `{queued, working, waiting}`, replace the
status reaction with the error emoji, send the interruption notice and
mark the task `interrupted` (the per-task `rxn task = none` models a
thrown provider call, caught per task, leaving that task unchanged). -/
def reconcilePure (store : Store) (accountId : String) (maxAgeMs now : Int)
    (rxn : Task → Option Reaction) : Store :=
  store.tasks.foldl
    (fun acc task =>
      if task.accountId ≠ accountId then acc
      else if task.interruptedHandled.getD false then acc
      else if ¬ (task.state = .queued ∨ task.state = .working ∨ task.state = .waiting) then acc
      else if now - task.updatedAtMs > maxAgeMs then acc
      else match rxn task with
        | none => acc
        | some r =>
          let updated : Task :=
            { task with
              state := .interrupted
              reaction := some r
              interruptedHandled := some true
              updatedAtMs := now }
          setLastInterruptible (upsertTask acc updated) task.chatId task.id)
    store

/-- The DONE emoji name (`FeishuEmoji.DONE`; `reactions.ts` is not part
of the provided sources — an opaque emoji-type token suffices for the
claims). -/
def emojiDONE : String := "DONE"

/-- A `replaceStatusReaction` call observed by the outbound
auto-finalization path. -/
structure ReplaceCall where
  messageId : String
  nextEmojiType : String
  prev : Option Reaction
deriving DecidableEq, Repr

/-- `String.prototype.trim()` in an executable form: drop leading and
trailing whitespace (structural recursion over the character list). -/
def trimStr (s : String) : String :=
  String.mk (((s.data.dropWhile Char.isWhitespace).reverse.dropWhile
    Char.isWhitespace).reverse)

/-- `maybeFinalizeWaitingInFlightTask` from `outbound.ts`: on an
outbound send whose trimmed `replyToId` matches a stored task's anchor,
finalize the task when it is `waiting` and belongs to the sending
account: paint DONE (passing the task's reaction as `prev`) and remove
the record.  `replaceResult = none` models a thrown
`replaceStatusReaction`; the surrounding `try/catch` swallows it, so the
store is left unchanged.  Returns the updated store and the reaction
call made, if any. -/
def maybeFinalizeWaitingInFlightTask (store : Store) (accountId : Option String)
    (replyToId : Option String) (replaceResult : Option Reaction) :
    Store × Option ReplaceCall :=
  let anchor := trimStr (replyToId.getD "")
  if anchor = "" then (store, none)
  else
    match store.tasks.find? fun t => t.messageId = anchor with
    | none => (store, none)
    | some task =>
      if task.state ≠ .waiting ∨ task.accountId ≠ accountId.getD "default" then
        (store, none)
      else
        let call : ReplaceCall := ⟨task.messageId, emojiDONE, task.reaction⟩
        match replaceResult with
        | none => (store, some call)
        | some _ => (removeTask store task.id, some call)

/-- A concrete interrupted task (anchored at message `m1`), used in
example runs of the state machine. -/
def exTask : Task :=
  { id := "t1", accountId := "default", chatId := "c1", chatType := .direct,
    userOpenId := none, messageId := "m1", originalText := "hello",
    truncated := some false, state := .interrupted, reaction := none,
    runId := none, resumeAttempts := some 1, updatedAtMs := 0,
    interruptedHandled := some false }

/-- A concrete waiting task (anchored at message `m2`). -/
def exWaiting : Task :=
  { id := "t2", accountId := "default", chatId := "c1", chatType := .direct,
    userOpenId := none, messageId := "m2", originalText := "work",
    truncated := some false, state := .waiting,
    reaction := some { emojiType := "Typing", reactionId := "rx1" },
    runId := none, resumeAttempts := some 0, updatedAtMs := 0,
    interruptedHandled := some false }

/-- An example store holding both tasks, with `t1` recorded as the last
interruptible task of chat `c1`. -/
def exStore : Store :=
  { tasks := [exTask, exWaiting], lastInterruptibleByChatId := [("c1", "t1")] }

/-- An example inbound context in chat `c1` (direct chat). -/
def exCtx : InboundCtx :=
  { accountId := "default", chatId := "c1", senderOpenId := "u1",
    messageId := "m9", content := "continue", isGroup := false }

/-- An example dispatch outcome: a reply was started and surfaced. -/
def exOutcome : DispatchOutcome :=
  { sawReplyStart := true, queuedFinal := false, finalCount := 1 }

end Feishu

namespace Gate

/-! Shallow embedding of the inbound gate of `handleFeishuMessage`
(`bot.ts`): the module-level in-memory dedup map (`tryRecordMessage`),
the persistent per-chat dedup ring and watermark, and the stale-drop
reply.  Times are `Int` milliseconds; `new Date(..).toISOString()` is an
oracle argument `iso`. -/

/-- `DEDUP_TTL_MS` (30 minutes). -/
def DEDUP_TTL_MS : Int := 30 * 60 * 1000

/-- `DEDUP_MAX_SIZE`. -/
def DEDUP_MAX_SIZE : Nat := 1000

/-- `DEDUP_CLEANUP_INTERVAL_MS` (5 minutes). -/
def DEDUP_CLEANUP_INTERVAL_MS : Int := 5 * 60 * 1000

/-- `FEISHU_RECENT_IDS_LIMIT`. -/
def FEISHU_RECENT_IDS_LIMIT : Nat := 250

/-- `FEISHU_STALE_SKEW_WINDOW_MS`. -/
def FEISHU_STALE_SKEW_WINDOW_MS : Int := 5000

/-- The in-memory dedup state: the insertion-ordered map
`processedMessageIds : messageId ↦ recorded-at` together with the
module-level `lastCleanupTime`. -/
structure DedupMem where
  entries : List (String × Int)
  lastCleanupTime : Int
deriving DecidableEq, Repr

/-- The throttled TTL sweep at the top of `tryRecordMessage`: at most
once per cleanup interval, evict every entry older than the TTL. -/
def sweepDedup (mem : DedupMem) (now : Int) : DedupMem :=
  if now - mem.lastCleanupTime > DEDUP_CLEANUP_INTERVAL_MS then
    { entries := mem.entries.filter fun e => now - e.2 ≤ DEDUP_TTL_MS
      lastCleanupTime := now }
  else mem

/-- `tryRecordMessage` from `bot.ts`: throttled sweep, duplicate test,
capacity eviction of the oldest entry, then record.  Returns the updated
map and whether the message is fresh. -/
def tryRecordMessage (mem : DedupMem) (messageId : String) (now : Int) :
    DedupMem × Bool :=
  let m1 := sweepDedup mem now
  if m1.entries.any fun e => e.1 = messageId then (m1, false)
  else
    let m2 := if m1.entries.length ≥ DEDUP_MAX_SIZE then
        { m1 with entries := m1.entries.drop 1 }
      else m1
    ({ m2 with entries := m2.entries ++ [(messageId, now)] }, true)

/-- The optional `staleDrop` block of the account config (`none` models a
missing or non-finite field). -/
structure StaleDropOpts where
  enabled : Option Bool
  reply : Option Bool
  skewWindowMs : Option Int
  recentIdsLimit : Option Int
deriving DecidableEq, Repr

/-- The resolved stale-drop configuration. -/
structure StaleDropCfg where
  enabled : Bool
  reply : Bool
  skewWindowMs : Int
  recentIdsLimit : Nat
deriving DecidableEq, Repr

/-- `resolveStaleDropConfig` from `bot.ts` (`Math.floor` is the identity
on the integral values modelled here; `Math.max` clamps). -/
def resolveStaleDropConfig (o : StaleDropOpts) : StaleDropCfg :=
  { enabled := o.enabled ≠ some false
    reply := o.reply ≠ some false
    skewWindowMs := match o.skewWindowMs with
      | some v => max 0 v
      | none => FEISHU_STALE_SKEW_WINDOW_MS
    recentIdsLimit := match o.recentIdsLimit with
      | some v => (max 1 v).toNat
      | none => FEISHU_RECENT_IDS_LIMIT }

/-- Persistent per-chat inbound state (`FeishuInboundState`, with the
`Array.isArray` normalization of `recentMessageIds` applied; the stored
`updatedAtMs` is irrelevant to the gate). -/
structure InboundState where
  lastProcessedSentAtMs : Option Int
  recentMessageIds : List String
deriving DecidableEq, Repr

/-- `Array.prototype.slice(-n)` on a list: the last `n` elements
(`slice(-0)` is the whole array). -/
def sliceLast {α : Type _} (l : List α) (n : Nat) : List α :=
  if n = 0 then l else l.drop (l.length - n)

/-- JS `Number.parseInt(s, 10)` followed by the `Number.isFinite`
filter: skip leading whitespace, optional sign, then a non-empty digit
prefix (`none` is JS `NaN`). -/
def parseIntJs (s : String) : Option Int :=
  let l := s.data.dropWhile Char.isWhitespace
  let core : Int × List Char := match l with
    | '-' :: rest => (-1, rest)
    | '+' :: rest => (1, rest)
    | _ => (1, l)
  let ds := core.2.takeWhile Char.isDigit
  if ds.isEmpty then none
  else some (core.1 * (ds.foldl (fun a c => a * 10 + (c.toNat - 48)) 0 : Nat))

/-- The `createTimeMs` computation of `parseFeishuMessageEvent`: a falsy
(missing or empty) `create_time` gives `undefined`; otherwise
`Number.parseInt`, filtered through `Number.isFinite`. -/
def parseCreateTime (createTime : Option String) : Option Int :=
  match createTime with
  | none => none
  | some s => if s = "" then none else parseIntJs s

/-- The inbound fields of one delivery that the gate inspects. -/
structure InboundEvent where
  messageId : String
  chatId : String
  senderOpenId : String
  isGroup : Bool
  createTimeMs : Option Int
deriving DecidableEq, Repr

/-- One `sendMessageFeishu` call made by the stale-reply path
(`sendTo` is the JS field `to`). -/
structure SendCall where
  sendTo : String
  replyToMessageId : String
  text : String
deriving DecidableEq, Repr

/-- The marker heading the stale notice. -/
def STALE_MARKER : String := "过期消息"

/-- The machine-readable reason line of the stale notice. -/
def STALE_REASON : String := "reason=out_of_order_delivery"

/-- The stale notice text built by `handleFeishuMessage`. -/
def staleText (iso : Int → String) (sentAt last : Int) : String :=
  STALE_MARKER ++ "，被忽略。
" ++
  "sentAt=" ++ toString sentAt ++ " (" ++ iso sentAt ++ ")
" ++
  "lastProcessedSentAt=" ++ toString last ++ " (" ++ iso last ++ ")
" ++
  STALE_REASON

/-- How one delivery clears (or fails) the gate. -/
inductive Admission where
  | dupMemory
  | dupPersistent
  | stale
  | dispatch
deriving DecidableEq, Repr

/-- The gate outcome: updated in-memory map, updated persistent state,
the admission, and the outbound sends made without the agent. -/
structure GateResult where
  mem : DedupMem
  state : InboundState
  admission : Admission
  sends : List SendCall
deriving DecidableEq, Repr

/-- The watermark/ring update of the non-stale path: push the id, keep
the last `recentIdsLimit` ids, advance the watermark to
`max(last ?? 0, sentAt)` when `sentAt` is finite. -/
def advanceState (cfg : StaleDropCfg) (state : InboundState) (ev : InboundEvent) :
    InboundState :=
  { lastProcessedSentAtMs := match ev.createTimeMs with
      | some sentAt => some (max (state.lastProcessedSentAtMs.getD 0) sentAt)
      | none => state.lastProcessedSentAtMs
    recentMessageIds := sliceLast (state.recentMessageIds ++ [ev.messageId])
      cfg.recentIdsLimit }

/-- The inbound gate of `handleFeishuMessage`: in-memory dedup,
persistent dedup, stale drop with optional direct reply, watermark/ring
update. -/
def admitInbound (cfg : StaleDropCfg) (mem : DedupMem) (state : InboundState)
    (ev : InboundEvent) (now : Int) (iso : Int → String) : GateResult :=
  match tryRecordMessage mem ev.messageId now with
  | (m1, false) => ⟨m1, state, .dupMemory, []⟩
  | (m1, true) =>
    if ¬ cfg.enabled then ⟨m1, state, .dispatch, []⟩
    else if state.recentMessageIds.any fun x => x = ev.messageId then
      ⟨m1, state, .dupPersistent, []⟩
    else
      match ev.createTimeMs, state.lastProcessedSentAtMs with
      | some sentAt, some last =>
        if sentAt < last - cfg.skewWindowMs then
          ⟨m1,
           { state with
             recentMessageIds := sliceLast (state.recentMessageIds ++ [ev.messageId])
               cfg.recentIdsLimit },
           .stale,
           if cfg.reply then
             [⟨if ev.isGroup then ev.chatId else ev.senderOpenId, ev.messageId,
               staleText iso sentAt last⟩]
           else []⟩
        else ⟨m1, advanceState cfg state ev, .dispatch, []⟩
      | _, _ => ⟨m1, advanceState cfg state ev, .dispatch, []⟩

/-- Run a sequence of timed deliveries through the gate, collecting each
admission. -/
def runInbound (cfg : StaleDropCfg) (iso : Int → String) :
    DedupMem → InboundState → List (InboundEvent × Int) →
      DedupMem × InboundState × List Admission
  | mem, st, [] => (mem, st, [])
  | mem, st, (ev, now) :: rest =>
    let r := admitInbound cfg mem st ev now iso
    let rr := runInbound cfg iso r.mem r.state rest
    (rr.1, rr.2.1, r.admission :: rr.2.2)

end Gate

namespace Rxn

/-- The `{emojiType, reactionId}` state returned by
`replaceStatusReaction`. -/
structure StatusReactionState where
  emojiType : String
  reactionId : String
deriving DecidableEq, Repr

/-- Provider calls (and the swallowed-error log) observable from
`replaceStatusReaction`. -/
inductive RxnEffect where
  | add (messageId emojiType : String)
  | remove (messageId reactionId : String)
  | removeFailedLog (messageId reactionId : String)
deriving DecidableEq, Repr

/-- `replaceStatusReaction`: add the next reaction first; then, only when
a previous reaction exists (truthy, i.e. non-empty id) and its id
differs from the newly returned one, best-effort remove it, logging and
swallowing a removal error.  `newReactionId` is the id returned by
`addReactionFeishu`; `removeOk = false` models a throwing
`removeReactionFeishu`.  Returns the new state and the effect trace in
call order. -/
def replaceStatusReaction (messageId nextEmojiType : String)
    (prev : Option StatusReactionState) (newReactionId : String) (removeOk : Bool) :
    StatusReactionState × List RxnEffect :=
  let addEff := RxnEffect.add messageId nextEmojiType
  let effs :=
    match prev with
    | some p =>
      if p.reactionId ≠ "" ∧ p.reactionId ≠ newReactionId then
        if removeOk then [addEff, .remove messageId p.reactionId]
        else [addEff, .remove messageId p.reactionId,
              .removeFailedLog messageId p.reactionId]
      else [addEff]
    | none => [addEff]
  ({ emojiType := nextEmojiType, reactionId := newReactionId }, effs)

end Rxn

namespace Announce

/-- The announce queue item (`AnnounceQueueItem`; delivery-context fields
are reduced to the origin key used by the drain). -/
structure Item where
  announceId : Option String
  prompt : String
  summaryLine : Option String
  enqueuedAt : Int
  sessionKey : String
  originKey : Option String
  highPriority : Bool
deriving DecidableEq, Repr

/-- `QueueMode` (from `queue.js`). -/
inductive QueueMode where
  | followup
  | collect
deriving DecidableEq, Repr

/-- The per-key announce queue state (`AnnounceQueueState`; the summary
machinery of `queue-helpers` is kept abstract through `droppedCount` and
`summaryLines`). -/
structure QueueState where
  items : List Item
  draining : Bool
  lastEnqueuedAt : Int
  mode : QueueMode
  debounceMs : Int
  cap : Nat
  droppedCount : Nat
  summaryLines : List String
  maxAgeMs : Int
deriving DecidableEq, Repr

/-- `isStaleItem`: high-priority items are never stale; with a
non-positive `maxAgeMs` nothing is stale; otherwise stale means the age
exceeds `maxAgeMs`. -/
def isStaleItem (q : QueueState) (item : Item) (now : Int) : Bool :=
  if item.highPriority then false
  else if q.maxAgeMs ≤ 0 then false
  else now - item.enqueuedAt > q.maxAgeMs

/-- What `sendIfFresh` did with an item. -/
inductive SendOutcome where
  | skippedStale
  | delivered
  | failed
deriving DecidableEq, Repr

/-- `sendIfFresh`: skip a stale item without calling `send`; otherwise
call `send` (the second component is the item passed to it); a rejected
`send` (`ok = false`) rethrows after logging. -/
def sendIfFresh (q : QueueState) (item : Item) (now : Int) (ok : Bool) :
    SendOutcome × Option Item :=
  if isStaleItem q item now then (.skippedStale, none)
  else if ok then (.delivered, some item)
  else (.failed, some item)

/-- `dropStaleItemsInPlace`: with a positive `maxAgeMs`, filter the
queued items down to the fresh ones. -/
def dropStaleItems (q : QueueState) (now : Int) : QueueState :=
  if q.maxAgeMs ≤ 0 then q
  else { q with items := q.items.filter fun item => ¬ isStaleItem q item now }

/-- One iteration of the `scheduleAnnounceDrain` while-loop in followup
mode with no pending drop summary: drop stale items, then attempt the
head item.  Returns the resulting queue state, the `send` calls made (in
order), and whether the loop keeps running.  A rejected `send` escapes
into the catch: the item is not shifted, `lastEnqueuedAt` is set to
`now` so the debounce re-applies, and the finally clause clears
`draining` (rescheduling whenever items remain). -/
def drainIterFollowup (q : QueueState) (now : Int) (ok : Bool) :
    QueueState × List Item × Bool :=
  let q1 := dropStaleItems q now
  match q1.items with
  | [] => (q1, [], false)
  | next :: rest =>
    if isStaleItem q1 next now then
      ({ q1 with items := rest }, [], true)
    else if ok then
      ({ q1 with items := rest }, [next], true)
    else
      ({ q1 with lastEnqueuedAt := now, draining := false }, [next], false)

/-- A sequence of drain iterations (each attempt at its own time, with
its own `send` outcome), collecting every `send` call. -/
def drainRunFollowup : QueueState → List (Int × Bool) → QueueState × List Item
  | q, [] => (q, [])
  | q, (now, ok) :: rest =>
    let r := drainIterFollowup q now ok
    let rr := drainRunFollowup r.1 rest
    (rr.1, r.2.1 ++ rr.2)

end Announce

-- DEFS_INSERTION_POINT (further component definitions go above this line)

/-!
## Lemmas and claim theorems
-/

namespace Guard

lemma takeWhile_of_all {p : GMsg → Bool} :
    ∀ {l : List GMsg}, (∀ x ∈ l, p x = true) → l.takeWhile p = l := by
  intro l h
  induction l with
  | nil => rfl
  | cons x t ih =>
    simp only [List.takeWhile_cons, h x (List.mem_cons_self x t)]
    exact congrArg (x :: ·) (ih fun y hy => h y (List.mem_cons_of_mem x hy))

lemma isAssistant_false_of_isTR {x : GMsg} (h : isToolResultMsg x = true) :
    isAssistantMsg x = false := by
  cases x <;> simp_all [isToolResultMsg, isAssistantMsg]

lemma strictAt_of_not_assistant {x : GMsg} (h : isAssistantMsg x = false)
    (rest : List GMsg) : strictAt x rest = true := by
  cases x <;> simp_all [isAssistantMsg, strictAt]

lemma pairedStrict_of_no_assistant :
    ∀ {l : List GMsg}, (∀ x ∈ l, isAssistantMsg x = false) → pairedStrict l = true := by
  intro l h
  induction l with
  | nil => rfl
  | cons x t ih =>
    have hx := h x (List.mem_cons_self x t)
    have ht : ∀ y ∈ t, isAssistantMsg y = false := fun y hy => h y (List.mem_cons_of_mem x hy)
    rw [pairedStrict, Bool.and_eq_true]
    exact ⟨strictAt_of_not_assistant hx t, ih ht⟩

lemma flushMsgs_all_TR : ∀ x ∈ flushMsgs p, isToolResultMsg x = true := by
  intro x hx
  simp only [flushMsgs, List.mem_map] at hx
  obtain ⟨e, _, rfl⟩ := hx
  rfl

lemma flushMsgs_no_assistant : ∀ x ∈ flushMsgs p, isAssistantMsg x = false :=
  fun x hx => isAssistant_false_of_isTR (flushMsgs_all_TR x hx)

lemma flushMsgs_any (p : PendingMap) (c : String) :
    (flushMsgs p).any (hasResultId c) = p.any fun e => e.1 = c := by
  induction p with
  | nil => rfl
  | cons e t ih =>
    show (makeMissingToolResult e.1 e.2 :: flushMsgs t).any _ = _
    simp only [List.any_cons, ih]
    rfl

/-- Monotone replacement of an all-tool-result suffix, per answered id. -/
lemma any_takeWhile_append_suffix {T S S' : List GMsg} {c : String}
    (hS : ∀ x ∈ S, isToolResultMsg x = true)
    (hS' : ∀ x ∈ S', isToolResultMsg x = true)
    (hids : S.any (hasResultId c) = true → S'.any (hasResultId c) = true)
    (h : ((T ++ S).takeWhile isToolResultMsg).any (hasResultId c) = true) :
    ((T ++ S').takeWhile isToolResultMsg).any (hasResultId c) = true := by
  induction T with
  | nil =>
    rw [List.nil_append, takeWhile_of_all hS] at h
    rw [List.nil_append, takeWhile_of_all hS']
    exact hids h
  | cons x t ih =>
    by_cases hx : isToolResultMsg x = true
    · rw [List.cons_append, List.takeWhile_cons, hx] at h ⊢
      simp only [if_true, List.any_cons, Bool.or_eq_true] at h ⊢
      cases h with
      | inl h => exact Or.inl h
      | inr h => exact Or.inr (ih h)
    · rw [List.cons_append, List.takeWhile_cons] at h
      simp only [Bool.not_eq_true] at hx
      rw [hx] at h
      simp at h

lemma coveredBy_takeWhile_append_suffix {T S S' : List GMsg} {cs : List ToolCall}
    (hS : ∀ x ∈ S, isToolResultMsg x = true)
    (hS' : ∀ x ∈ S', isToolResultMsg x = true)
    (hids : ∀ c, S.any (hasResultId c) = true → S'.any (hasResultId c) = true)
    (h : coveredBy cs ((T ++ S).takeWhile isToolResultMsg) = true) :
    coveredBy cs ((T ++ S').takeWhile isToolResultMsg) = true := by
  simp only [coveredBy, List.all_eq_true] at h ⊢
  exact fun c hc => any_takeWhile_append_suffix hS hS' (hids c.id) (h c hc)

lemma strictAt_append_suffix {S S' : List GMsg} {x : GMsg} {t : List GMsg}
    (hS : ∀ x ∈ S, isToolResultMsg x = true)
    (hS' : ∀ x ∈ S', isToolResultMsg x = true)
    (hids : ∀ c, S.any (hasResultId c) = true → S'.any (hasResultId c) = true)
    (h : strictAt x (t ++ S) = true) : strictAt x (t ++ S') = true := by
  cases x with
  | assistant cs =>
    exact coveredBy_takeWhile_append_suffix hS hS' hids h
  | toolResult a b c d e => rfl
  | other => rfl

/-- Replacing an all-tool-result suffix with one answering at least the
same ids preserves strict pairing. -/
lemma pairedStrict_append_suffix {S S' : List GMsg}
    (hS : ∀ x ∈ S, isToolResultMsg x = true)
    (hS' : ∀ x ∈ S', isToolResultMsg x = true)
    (hids : ∀ c, S.any (hasResultId c) = true → S'.any (hasResultId c) = true) :
    ∀ {T : List GMsg}, pairedStrict (T ++ S) = true → pairedStrict (T ++ S') = true := by
  intro T
  induction T with
  | nil =>
    intro _
    exact pairedStrict_of_no_assistant fun x hx =>
      isAssistant_false_of_isTR (hS' x hx)
  | cons x t ih =>
    intro h
    rw [List.cons_append, pairedStrict, Bool.and_eq_true] at h ⊢
    exact ⟨strictAt_append_suffix hS hS' hids h.1, ih h.2⟩

lemma takeWhile_append_head_not {t B : List GMsg}
    (hB : ∀ h, B.head? = some h → isToolResultMsg h = false) :
    (t ++ B).takeWhile isToolResultMsg = t.takeWhile isToolResultMsg := by
  induction t with
  | nil =>
    cases B with
    | nil => rfl
    | cons b bs =>
      have := hB b rfl
      simp [List.takeWhile_cons, this]
  | cons x t ih =>
    by_cases hx : isToolResultMsg x = true
    · simp [List.takeWhile_cons, hx, ih]
    · simp only [Bool.not_eq_true] at hx
      simp [List.takeWhile_cons, hx]

/-- Appending a strictly paired block whose first entry is not a tool
result preserves strict pairing. -/
lemma pairedStrict_append_block {B : List GMsg}
    (hBpaired : pairedStrict B = true)
    (hBhead : ∀ h, B.head? = some h → isToolResultMsg h = false) :
    ∀ {T : List GMsg}, pairedStrict T = true → pairedStrict (T ++ B) = true := by
  intro T
  induction T with
  | nil => intro _; simpa using hBpaired
  | cons x t ih =>
    intro h
    rw [pairedStrict, Bool.and_eq_true] at h
    rw [List.cons_append, pairedStrict, Bool.and_eq_true]
    refine ⟨?_, ih h.2⟩
    cases x with
    | assistant cs =>
      have := h.1
      simpa only [strictAt, takeWhile_append_head_not hBhead] using this
    | toolResult a b c d e => rfl
    | other => rfl

lemma takeWhile_append_of_dropWhile_ne {t : List GMsg} (S : List GMsg)
    (h : ¬ (t.dropWhile isToolResultMsg).isEmpty = true) :
    (t ++ S).takeWhile isToolResultMsg = t.takeWhile isToolResultMsg := by
  induction t with
  | nil => simp [List.dropWhile] at h
  | cons x t ih =>
    by_cases hx : isToolResultMsg x = true
    · rw [List.dropWhile_cons, if_pos hx] at h
      simp [List.takeWhile_cons, hx, ih h]
    · simp only [Bool.not_eq_true] at hx
      simp [List.takeWhile_cons, hx]

/-- A strictly paired transcript followed by an all-tool-result flush
block is (laxly) paired on its own. -/
lemma pairedOk_of_strict_append {S : List GMsg}
    (_hS : ∀ x ∈ S, isToolResultMsg x = true) :
    ∀ {T : List GMsg}, pairedStrict (T ++ S) = true → pairedOk T = true := by
  intro T
  induction T with
  | nil => intro _; rfl
  | cons x t ih =>
    intro h
    rw [List.cons_append, pairedStrict, Bool.and_eq_true] at h
    rw [pairedOk, Bool.and_eq_true]
    refine ⟨?_, ih h.2⟩
    cases x with
    | assistant cs =>
      have h1 := h.1
      by_cases hEmpty : (t.dropWhile isToolResultMsg).isEmpty = true
      · simp [okAt, hEmpty]
      · rw [strictAt, takeWhile_append_of_dropWhile_ne S hEmpty] at h1
        simp [okAt, h1]
    | toolResult a b c d e => rfl
    | other => rfl

/-! ### Pending-map lemmas -/

lemma any_mapDelete_of_ne {p : PendingMap} {i c : String} (h : c ≠ i) :
    ((mapDelete p i).any fun e => e.1 = c) = p.any fun e => e.1 = c := by
  induction p with
  | nil => rfl
  | cons e t ih =>
    unfold mapDelete at ih ⊢
    by_cases he : e.1 = i
    · have hec : ¬ (e.1 = c) := fun hc => h (hc ▸ he)
      rw [List.filter_cons, if_neg (by simp [he]), List.any_cons, ih]
      simp [hec]
    · rw [List.filter_cons, if_pos (by simpa using he), List.any_cons, List.any_cons, ih]

lemma mapSet_any_self (m : PendingMap) (k : String) (v : Option String) :
    ((mapSet m k v).any fun e => e.1 = k) = true := by
  unfold mapSet
  by_cases hm : (m.any fun e => e.1 = k) = true
  · rw [if_pos hm]
    rw [List.any_eq_true] at hm ⊢
    obtain ⟨e, he, hek⟩ := hm
    refine ⟨(k, v), List.mem_map.2 ⟨e, he, ?_⟩, by simp⟩
    simp only [decide_eq_true_eq] at hek
    simp [hek]
  · rw [if_neg hm]
    rw [List.any_eq_true]
    exact ⟨(k, v), List.mem_append_right _ (List.mem_singleton.2 rfl), by simp⟩

lemma mapSet_any_mono {m : PendingMap} {c : String} (k : String) (v : Option String)
    (h : (m.any fun e => e.1 = c) = true) :
    ((mapSet m k v).any fun e => e.1 = c) = true := by
  unfold mapSet
  split
  · rw [List.any_eq_true] at h ⊢
    obtain ⟨e, he, hec⟩ := h
    simp only [decide_eq_true_eq] at hec
    by_cases hek : e.1 = k
    · refine ⟨(k, v), List.mem_map.2 ⟨e, he, by simp [hek]⟩, by simp [← hek, hec]⟩
    · refine ⟨e, List.mem_map.2 ⟨e, he, by simp [hek]⟩, by simp [hec]⟩
  · rw [List.any_append, h, Bool.true_or]

lemma mapSet_any_inv {m : PendingMap} {c k : String} {v : Option String}
    (h : ((mapSet m k v).any fun e => e.1 = c) = true) :
    (m.any fun e => e.1 = c) = true ∨ c = k := by
  unfold mapSet at h
  by_cases hm : (m.any fun e => e.1 = k) = true
  · rw [if_pos hm, List.any_eq_true] at h
    obtain ⟨e, he, hec⟩ := h
    obtain ⟨e0, he0, heq⟩ := List.mem_map.1 he
    simp only [decide_eq_true_eq] at hec
    by_cases he0k : e0.1 = k
    · simp only [if_pos he0k] at heq
      right
      rw [← hec, ← heq]
    · simp only [if_neg he0k] at heq
      left
      rw [List.any_eq_true]
      exact ⟨e0, he0, by simp [heq ▸ hec]⟩
  · rw [if_neg hm, List.any_append, Bool.or_eq_true] at h
    cases h with
    | inl h => exact Or.inl h
    | inr h =>
      right
      simp only [List.any_cons, List.any_nil, Bool.or_false, decide_eq_true_eq] at h
      exact h.symm

lemma recordCalls_any_mono {c : String} :
    ∀ (cs : List ToolCall) (m : PendingMap),
      (m.any fun e => e.1 = c) = true →
      ((recordCalls m cs).any fun e => e.1 = c) = true := by
  intro cs
  induction cs with
  | nil => exact fun m h => h
  | cons x t ih =>
    intro m h
    exact ih (mapSet m x.id (some x.name)) (mapSet_any_mono x.id (some x.name) h)

lemma recordCalls_any_of_mem {cs : List ToolCall} {c : ToolCall} (hc : c ∈ cs) :
    ∀ (m : PendingMap), ((recordCalls m cs).any fun e => e.1 = c.id) = true := by
  induction cs with
  | nil => cases hc
  | cons x t ih =>
    intro m
    rcases List.mem_cons.1 hc with rfl | hc'
    · exact recordCalls_any_mono t _ (mapSet_any_self m c.id (some c.name))
    · exact ih hc' _

lemma recordCalls_any_inv {c : String} :
    ∀ (cs : List ToolCall) (m : PendingMap),
      ((recordCalls m cs).any fun e => e.1 = c) = true →
      (m.any fun e => e.1 = c) = true ∨ ∃ x ∈ cs, x.id = c := by
  intro cs
  induction cs with
  | nil => exact fun m h => Or.inl h
  | cons x t ih =>
    intro m h
    rcases ih (mapSet m x.id (some x.name)) h with h' | ⟨y, hy, hyc⟩
    · rcases mapSet_any_inv h' with h'' | rfl
      · exact Or.inl h''
      · exact Or.inr ⟨x, List.mem_cons_self x t, rfl⟩
    · exact Or.inr ⟨y, List.mem_cons_of_mem x hy, hyc⟩

/-! ### Shape preservation through the persistence pipeline -/

lemma isTR_appendHint (msg : GMsg) (h : String) :
    isToolResultMsg (appendToolResultHint msg h) = isToolResultMsg msg := by
  cases msg <;> rfl

lemma extractId_appendHint (msg : GMsg) (h : String) :
    extractToolResultId (appendToolResultHint msg h) = extractToolResultId msg := by
  cases msg <;> rfl

lemma annotate_synthetic (msg : GMsg) (a : Option String) (b : Option String) :
    annotateRecoverableToolErrors msg ⟨a, b, true⟩ = msg := by
  simp [annotateRecoverableToolErrors]

lemma annotate_eq_or_hint (msg : GMsg) (meta : ToolResultMeta) :
    annotateRecoverableToolErrors msg meta = msg ∨
      ∃ h, annotateRecoverableToolErrors msg meta = appendToolResultHint msg h := by
  unfold annotateRecoverableToolErrors
  split
  · exact Or.inl rfl
  · cases msg with
    | assistant cs => exact Or.inl rfl
    | other => exact Or.inl rfl
    | toolResult tc tn ie isyn content =>
      by_cases hie : ie
      · simp only [hie, not_true_eq_false, if_false]
        split
        · exact Or.inl rfl
        · split
          · exact Or.inr ⟨_, rfl⟩
          · exact Or.inl rfl
      · simp only [hie]
        simp

lemma isTR_annotate (msg : GMsg) (meta : ToolResultMeta) :
    isToolResultMsg (annotateRecoverableToolErrors msg meta) = isToolResultMsg msg := by
  rcases annotate_eq_or_hint msg meta with h | ⟨s, h⟩
  · rw [h]
  · rw [h, isTR_appendHint]

lemma extractId_annotate (msg : GMsg) (meta : ToolResultMeta) :
    extractToolResultId (annotateRecoverableToolErrors msg meta) = extractToolResultId msg := by
  rcases annotate_eq_or_hint msg meta with h | ⟨s, h⟩
  · rw [h]
  · rw [h, extractId_appendHint]

lemma annotate_not_error (tc tn : Option String) (isyn : Bool) (content : List Block)
    (meta : ToolResultMeta) :
    annotateRecoverableToolErrors (.toolResult tc tn false isyn content) meta
      = .toolResult tc tn false isyn content := by
  unfold annotateRecoverableToolErrors
  split
  · rfl
  · simp

lemma cap_of_le {H : Nat} {tc tn : Option String} {ie isyn : Bool} {content : List Block}
    (h : totalTextChars content ≤ H) :
    capToolResultSize H (.toolResult tc tn ie isyn content)
      = .toolResult tc tn ie isyn content := by
  unfold capToolResultSize
  simp [h]

lemma cap_of_gt {H : Nat} {tc tn : Option String} {ie isyn : Bool} {content : List Block}
    (h : ¬ totalTextChars content ≤ H) :
    capToolResultSize H (.toolResult tc tn ie isyn content)
      = .toolResult tc tn ie isyn (content.map (cappedBlock H (totalTextChars content))) := by
  unfold capToolResultSize
  simp [h]

lemma cap_eq_or_toolResult (H : Nat) (msg : GMsg) :
    capToolResultSize H msg = msg ∨
      ∃ tc tn ie isyn content newContent,
        msg = .toolResult tc tn ie isyn content ∧
        capToolResultSize H msg = .toolResult tc tn ie isyn newContent := by
  cases msg with
  | assistant cs => exact Or.inl rfl
  | other => exact Or.inl rfl
  | toolResult tc tn ie isyn content =>
    by_cases h : totalTextChars content ≤ H
    · exact Or.inl (cap_of_le h)
    · exact Or.inr ⟨tc, tn, ie, isyn, content, _, rfl, cap_of_gt h⟩

lemma isTR_cap (H : Nat) (msg : GMsg) :
    isToolResultMsg (capToolResultSize H msg) = isToolResultMsg msg := by
  rcases cap_eq_or_toolResult H msg with h | ⟨tc, tn, ie, isyn, c, nc, hm, h⟩
  · rw [h]
  · rw [h, hm]
    rfl

lemma extractId_cap (H : Nat) (msg : GMsg) :
    extractToolResultId (capToolResultSize H msg) = extractToolResultId msg := by
  rcases cap_eq_or_toolResult H msg with h | ⟨tc, tn, ie, isyn, c, nc, hm, h⟩
  · rw [h]
  · rw [h, hm]
    rfl

lemma hasResultId_of_extract {c : String} {msg : GMsg}
    (hTR : isToolResultMsg msg = true) (hid : extractToolResultId msg = some c) :
    hasResultId c msg = true := by
  cases msg with
  | assistant cs => simp [isToolResultMsg] at hTR
  | other => simp [isToolResultMsg] at hTR
  | toolResult tc tn ie isyn content =>
    simp only [extractToolResultId] at hid
    subst hid
    simp [hasResultId]

/-! ### The guard preserves the pairing invariant -/

lemma filterMap_some_map {α β : Type} (f : α → β) (l : List α) :
    (l.filterMap fun a => some (f a)) = l.map f := by
  induction l with
  | nil => rfl
  | cons a t ih => simp [List.filterMap_cons, ih]

lemma flush_plain {opts : GuardOpts} (h : plainOpts opts) (st : GuardState) :
    flushPendingToolResults opts st = ⟨[], st.transcript ++ flushMsgs st.pending⟩ := by
  obtain ⟨hA, hTM, hTR, hBW⟩ := h
  have hfun : (fun e : String × Option String =>
      applyBeforeWriteHook opts
        (persistToolResult opts (persistMessage opts (makeMissingToolResult e.1 e.2))
          ⟨some e.1, e.2, true⟩))
      = (fun e : String × Option String => some (makeMissingToolResult e.1 e.2)) := by
    funext e
    simp only [persistMessage, hTM, persistToolResult, hTR, applyBeforeWriteHook, hBW]
    rw [annotate_synthetic]
  cases st with
  | mk p T =>
    unfold flushPendingToolResults
    by_cases hp : p = []
    · simp only
      rw [if_pos hp]
      subst hp
      simp [flushMsgs]
    · simp only
      rw [if_neg hp, if_pos hA, hfun, filterMap_some_map]
      rfl

/-- Under default options the tool-result branch appends exactly the
annotated, capped message and deletes its id from `pending`. -/
lemma appendToolResultStep_plain {opts : GuardOpts}
    (hTM : opts.transformMessage = none) (hTRm : opts.transformToolResult = none)
    (hBW : opts.beforeWrite = none)
    (st : GuardState) (tc tn : Option String) (ie isyn : Bool) (content : List Block) :
    appendToolResultStep opts st (.toolResult tc tn ie isyn content)
      = { pending := match tc with
            | some i => mapDelete st.pending i
            | none => st.pending,
          transcript := st.transcript ++
            [annotateRecoverableToolErrors
              (capToolResultSize opts.hardMax (.toolResult tc tn ie isyn content))
              ⟨tc, match tc with
                   | some i => (mapGet st.pending i).getD none
                   | none => none, false⟩] } := by
  unfold appendToolResultStep
  simp only [extractToolResultId, applyBeforeWriteHook, hBW, persistToolResult, hTRm,
    persistMessage, hTM]

/-- Core step: appending one answering tool result and dropping its id
from the pending map keeps the transcript-plus-flush strictly paired. -/
lemma guardInv_toolResult_core {T : List GMsg} {p p1 : PendingMap} {persisted : GMsg}
    (hTRp : isToolResultMsg persisted = true)
    (hids : ∀ c, (p.any fun e => e.1 = c) = true →
      hasResultId c persisted = true ∨ (p1.any fun e => e.1 = c) = true)
    (hinv : pairedStrict (T ++ flushMsgs p) = true) :
    pairedStrict ((T ++ [persisted]) ++ flushMsgs p1) = true := by
  rw [List.append_assoc]
  refine @pairedStrict_append_suffix (flushMsgs p) ([persisted] ++ flushMsgs p1)
    flushMsgs_all_TR ?_ ?_ _ hinv
  · intro x hx
    rw [List.singleton_append] at hx
    rcases List.mem_cons.1 hx with rfl | hx'
    · exact hTRp
    · exact flushMsgs_all_TR x hx'
  · intro c hc
    rw [flushMsgs_any] at hc
    rw [List.singleton_append, List.any_cons, Bool.or_eq_true]
    rcases hids c hc with h | h
    · exact Or.inl h
    · right
      rw [flushMsgs_any]
      exact h

lemma guardInv_toolResultStep {opts : GuardOpts} (hplain : plainOpts opts)
    (st : GuardState) (tc tn : Option String) (ie isyn : Bool) (content : List Block) :
    guardInv st →
    guardInv (appendToolResultStep opts st (.toolResult tc tn ie isyn content)) := by
  intro hinv
  rw [appendToolResultStep_plain hplain.2.1 hplain.2.2.1 hplain.2.2.2]
  unfold guardInv at hinv ⊢
  cases tc with
  | none =>
    refine guardInv_toolResult_core ?_ (fun c hc => Or.inr hc) hinv
    rw [isTR_annotate, isTR_cap]
    rfl
  | some i =>
    have hTRp : isToolResultMsg
        (annotateRecoverableToolErrors
          (capToolResultSize opts.hardMax (.toolResult (some i) tn ie isyn content))
          ⟨some i, (mapGet st.pending i).getD none, false⟩) = true := by
      rw [isTR_annotate, isTR_cap]
      rfl
    refine guardInv_toolResult_core hTRp ?_ hinv
    intro c hc
    by_cases hci : c = i
    · subst hci
      left
      refine hasResultId_of_extract hTRp ?_
      rw [extractId_annotate, extractId_cap]
      rfl
    · right
      rw [any_mapDelete_of_ne hci]
      exact hc

/-- Under default options the non-tool-result branch first flushes any
pending ids, then appends the message and records its tool calls. -/
lemma appendNonToolResultStep_plain {opts : GuardOpts} (hplain : plainOpts opts)
    (st : GuardState) (next : GMsg) :
    appendNonToolResultStep opts st next
      = { pending := recordCalls [] (extractToolCallsFromAssistant next),
          transcript := (st.transcript ++ flushMsgs st.pending) ++ [next] } := by
  obtain ⟨hA, hTM, hTRm, hBW⟩ := hplain
  have hflush := flush_plain ⟨hA, hTM, hTRm, hBW⟩ st
  unfold appendNonToolResultStep
  simp only [applyBeforeWriteHook, hBW, persistMessage, hTM]
  by_cases hp : st.pending = []
  · have hcond1 : ¬ (opts.allowSynthetic = true ∧ st.pending ≠ [] ∧
        ((extractToolCallsFromAssistant next).isEmpty = true ∨ ¬ isAssistantMsg next = true)) :=
      fun h => h.2.1 hp
    rw [if_neg hcond1]
    have hcond2 : ¬ (opts.allowSynthetic = true ∧ st.pending ≠ [] ∧
        ¬ (extractToolCallsFromAssistant next).isEmpty = true) :=
      fun h => h.2.1 hp
    rw [if_neg hcond2]
    cases st with
    | mk p T =>
      simp only at hp
      subst hp
      simp [flushMsgs, recordCalls]
  · by_cases hc : (extractToolCallsFromAssistant next).isEmpty = true ∨ ¬ isAssistantMsg next = true
    · have hcond1 : opts.allowSynthetic = true ∧ st.pending ≠ [] ∧
          ((extractToolCallsFromAssistant next).isEmpty = true ∨ ¬ isAssistantMsg next = true) :=
        ⟨hA, hp, hc⟩
      rw [if_pos hcond1, hflush]
      have hcond2 : ¬ (opts.allowSynthetic = true ∧
          ({ pending := [], transcript := st.transcript ++ flushMsgs st.pending } :
            GuardState).pending ≠ [] ∧
          ¬ (extractToolCallsFromAssistant next).isEmpty = true) :=
        fun h => h.2.1 rfl
      rw [if_neg hcond2]
    · have hcond1 : ¬ (opts.allowSynthetic = true ∧ st.pending ≠ [] ∧
          ((extractToolCallsFromAssistant next).isEmpty = true ∨ ¬ isAssistantMsg next = true)) :=
        fun h => hc h.2.2
      rw [if_neg hcond1]
      have hcond2 : opts.allowSynthetic = true ∧ st.pending ≠ [] ∧
          ¬ (extractToolCallsFromAssistant next).isEmpty = true :=
        ⟨hA, hp, fun ha => hc (Or.inl ha)⟩
      rw [if_pos hcond2, hflush]

lemma guardInv_nonToolResultStep {opts : GuardOpts} (hplain : plainOpts opts)
    (st : GuardState) (next : GMsg) (hnt : isToolResultMsg next = false) :
    guardInv st → guardInv (appendNonToolResultStep opts st next) := by
  intro hinv
  rw [appendNonToolResultStep_plain hplain]
  unfold guardInv at hinv ⊢
  show pairedStrict (((st.transcript ++ flushMsgs st.pending) ++ [next]) ++
    flushMsgs (recordCalls [] (extractToolCallsFromAssistant next))) = true
  rw [List.append_assoc]
  refine pairedStrict_append_block ?_ ?_ hinv
  · rw [List.singleton_append, pairedStrict, Bool.and_eq_true]
    constructor
    · cases next with
      | assistant cs =>
        show coveredBy cs _ = true
        rw [takeWhile_of_all flushMsgs_all_TR]
        rw [coveredBy, List.all_eq_true]
        intro c hc
        rw [flushMsgs_any]
        exact recordCalls_any_of_mem hc []
      | toolResult a b c d e => simp [isToolResultMsg] at hnt
      | other => rfl
    · exact pairedStrict_of_no_assistant flushMsgs_no_assistant
  · intro h hh
    rw [List.singleton_append, List.head?_cons, Option.some_inj] at hh
    rw [← hh]
    exact hnt

/-- One guarded append preserves the pairing invariant. -/
lemma guardInv_append {opts : GuardOpts} (hplain : plainOpts opts)
    (st : GuardState) (m : GMsg) :
    guardInv st → guardInv (guardedAppend opts st m) := by
  intro hinv
  have ⟨hA, hTM, hTRm, hBW⟩ := hplain
  unfold guardedAppend
  cases hsan : sanitizedNext opts m with
  | none =>
    simp only
    by_cases hp : st.pending = []
    · rw [if_neg (fun h => h.2 hp)]
      exact hinv
    · rw [if_pos ⟨hA, hp⟩, flush_plain ⟨hA, hTM, hTRm, hBW⟩]
      unfold guardInv at hinv ⊢
      simpa [flushMsgs] using hinv
  | some next =>
    simp only
    by_cases hTR : isToolResultMsg next = true
    · rw [if_pos hTR]
      cases next with
      | toolResult tc tn ie isyn content =>
        exact guardInv_toolResultStep hplain st tc tn ie isyn content hinv
      | assistant cs => simp [isToolResultMsg] at hTR
      | other => simp [isToolResultMsg] at hTR
    · rw [if_neg hTR]
      exact guardInv_nonToolResultStep hplain st next (by simpa using hTR) hinv

/-! ### Size bounds for `capToolResultSize` -/

lemma nat_add_div_le (a b d : Nat) : a / d + b / d ≤ (a + b) / d := by
  rcases Nat.eq_zero_or_pos d with rfl | hd
  · simp
  · rw [Nat.le_div_iff_mul_le hd, Nat.add_mul]
    exact Nat.add_le_add (Nat.div_mul_le_self a d) (Nat.div_mul_le_self b d)

lemma sum_div_le (l : List Nat) (d : Nat) : (l.map (· / d)).sum ≤ l.sum / d := by
  induction l with
  | nil => simp
  | cons a t ih =>
    simp only [List.map_cons, List.sum_cons]
    calc a / d + (t.map (· / d)).sum
        ≤ a / d + t.sum / d := Nat.add_le_add_left ih _
      _ ≤ (a + t.sum) / d := nat_add_div_le a t.sum d

lemma lastNewlineScan_le (pos : Nat) :
    ∀ (cs : List Char) (idx : Nat) (acc : Option Nat),
      (∀ j, acc = some j → j ≤ pos) →
      ∀ i, lastNewlineScan pos cs idx acc = some i → i ≤ pos := by
  intro cs
  induction cs with
  | nil => exact fun idx acc hacc i h => hacc i h
  | cons c rest ih =>
    intro idx acc hacc i h
    unfold lastNewlineScan at h
    by_cases hidx : idx > pos
    · rw [if_pos hidx] at h
      exact hacc i h
    · rw [if_neg hidx] at h
      refine ih (idx + 1) _ ?_ i h
      intro j hj
      by_cases hcn : c = '\n'
      · rw [if_pos hcn, Option.some_inj] at hj
        omega
      · rw [if_neg hcn] at hj
        exact hacc j hj

lemma lastNewlineUpTo_le {cs : List Char} {pos i : Nat}
    (h : lastNewlineUpTo cs pos = some i) : i ≤ pos :=
  lastNewlineScan_le pos cs 0 none (fun j hj => by cases hj) i h

lemma cutPointFor_le (s : String) (B : Nat) : cutPointFor s B ≤ B := by
  unfold cutPointFor
  cases h : lastNewlineUpTo s.data B with
  | none => exact le_refl B
  | some nl =>
    have hnl := lastNewlineUpTo_le h
    simp only
    split <;> omega

lemma string_mk_append_length (l : List Char) (t : String) :
    ((⟨l⟩ : String) ++ t).length = l.length + t.length := by
  show ((⟨l⟩ : String) ++ t).data.length = _
  rw [String.data_append]
  exact List.length_append _ _

lemma blockBudgetFor_le (hardMax total len : Nat) :
    blockBudgetFor hardMax total len ≤ 2000 + hardMax * len / total := by
  unfold blockBudgetFor
  refine max_le (Nat.le_add_right _ _) ?_
  exact le_trans (Nat.sub_le _ _) (Nat.le_add_left _ _)

lemma blockTextLen_cappedBlock (H total : Nat) (b : Block) :
    blockTextLen (cappedBlock H total b)
      ≤ (2000 + GUARD_TRUNCATION_SUFFIX.length) + H * blockTextLen b / total := by
  cases b with
  | nonText => simp [cappedBlock, blockTextLen]
  | text s =>
    have hred : blockTextLen (Block.text s) = s.length := rfl
    rw [hred]
    unfold cappedBlock
    simp only
    split
    · rename_i hle
      rw [hred]
      have h2 := blockBudgetFor_le H total s.length
      omega
    · have hcut : blockTextLen
          (Block.text ((⟨s.data.take (cutPointFor s (blockBudgetFor H total s.length))⟩ :
            String) ++ GUARD_TRUNCATION_SUFFIX))
          = (s.data.take (cutPointFor s (blockBudgetFor H total s.length))).length
            + GUARD_TRUNCATION_SUFFIX.length := by
        show ((⟨_⟩ : String) ++ GUARD_TRUNCATION_SUFFIX).length = _
        exact string_mk_append_length _ _
      rw [hcut, List.length_take]
      have h1 : min (cutPointFor s (blockBudgetFor H total s.length)) s.data.length
          ≤ blockBudgetFor H total s.length :=
        le_trans (min_le_left _ _) (cutPointFor_le s _)
      have h2 := blockBudgetFor_le H total s.length
      omega

lemma totalTextChars_map_capped_aux (H total : Nat) :
    ∀ (l : List Block),
      totalTextChars (l.map (cappedBlock H total))
        ≤ numTextBlocks l * (2000 + GUARD_TRUNCATION_SUFFIX.length)
          + (l.map fun b => H * blockTextLen b / total).sum := by
  intro l
  induction l with
  | nil => simp [totalTextChars, numTextBlocks]
  | cons b t ih =>
    have hb := blockTextLen_cappedBlock H total b
    cases b with
    | nonText =>
      show blockTextLen (cappedBlock H total .nonText)
          + totalTextChars (t.map (cappedBlock H total)) ≤ _
      have hz : blockTextLen (cappedBlock H total .nonText) = 0 := rfl
      have hnum : numTextBlocks (Block.nonText :: t) = numTextBlocks t := rfl
      have hq : H * blockTextLen Block.nonText / total = 0 := by
        simp [blockTextLen]
      show blockTextLen (cappedBlock H total .nonText)
          + totalTextChars (t.map (cappedBlock H total))
        ≤ numTextBlocks (Block.nonText :: t) * (2000 + GUARD_TRUNCATION_SUFFIX.length)
          + (H * blockTextLen Block.nonText / total
            + (t.map fun b => H * blockTextLen b / total).sum)
      rw [hz, hnum, hq]
      omega
    | text s =>
      have hnum : numTextBlocks (Block.text s :: t) = numTextBlocks t + 1 := by
        simp [numTextBlocks, List.filter_cons]
      show blockTextLen (cappedBlock H total (.text s))
          + totalTextChars (t.map (cappedBlock H total))
        ≤ numTextBlocks (Block.text s :: t) * (2000 + GUARD_TRUNCATION_SUFFIX.length)
          + (H * blockTextLen (Block.text s) / total
            + (t.map fun b => H * blockTextLen b / total).sum)
      rw [hnum, Nat.succ_mul]
      omega

lemma sum_mul_div_le (H : Nat) (l : List Nat) :
    (l.map fun len => H * len / total).sum ≤ H * l.sum / total := by
  have h1 : (l.map fun len => H * len / total) = ((l.map (H * ·)).map (· / total)) := by
    rw [List.map_map]
    rfl
  rw [h1]
  refine le_trans (sum_div_le _ _) ?_
  have h2 : (l.map (H * ·)).sum = H * l.sum := by
    induction l with
    | nil => simp
    | cons a t ih => simp [ih, Nat.mul_add]
  rw [h2]

lemma mul_self_div_le (H total : Nat) : H * total / total ≤ H := by
  rcases Nat.eq_zero_or_pos total with rfl | hd
  · simp
  · rw [Nat.mul_div_cancel _ hd]

/-- The corrected global bound: the capped content's total text size is
at most `hardMax` plus a per-text-block overhead of
`2000 + |suffix|`. -/
lemma capped_total_le (H : Nat) (content : List Block) :
    totalTextChars (content.map (cappedBlock H (totalTextChars content)))
      ≤ H + numTextBlocks content * (2000 + GUARD_TRUNCATION_SUFFIX.length) := by
  refine le_trans (totalTextChars_map_capped_aux H (totalTextChars content) content) ?_
  have h1 : (content.map fun b => H * blockTextLen b / totalTextChars content).sum
      ≤ H := by
    have h2 : (content.map fun b => H * blockTextLen b / totalTextChars content)
        = ((content.map blockTextLen).map
            fun len => H * len / totalTextChars content) := by
      rw [List.map_map]
      rfl
    rw [h2]
    refine le_trans (sum_mul_div_le H _) ?_
    exact mul_self_div_le H _
  omega

/-- The invariant holds after any run of the guard from the initial
state. -/
lemma guardInv_runGuard {opts : GuardOpts} (hplain : plainOpts opts)
    (msgs : List GMsg) : guardInv (runGuard opts msgs) := by
  have h0 : guardInv ⟨[], []⟩ := by
    unfold guardInv flushMsgs
    rfl
  unfold runGuard
  generalize hst : (⟨[], []⟩ : GuardState) = st0
  rw [hst] at h0
  clear hst
  induction msgs generalizing st0 with
  | nil => exact h0
  | cons m t ih => exact ih _ (guardInv_append hplain st0 m h0)

/-! ### Branch equations for `guardedAppend` -/

lemma guardedAppend_none {opts : GuardOpts} {m : GMsg} (st : GuardState)
    (hsan : sanitizedNext opts m = none) :
    guardedAppend opts st m
      = if opts.allowSynthetic ∧ st.pending ≠ [] then flushPendingToolResults opts st
        else st := by
  unfold guardedAppend
  rw [hsan]

lemma guardedAppend_some_toolResult {opts : GuardOpts} {m next : GMsg} (st : GuardState)
    (hsan : sanitizedNext opts m = some next) (hTR : isToolResultMsg next = true) :
    guardedAppend opts st m = appendToolResultStep opts st next := by
  unfold guardedAppend
  rw [hsan]
  simp only
  rw [if_pos hTR]

lemma guardedAppend_some_nonTR {opts : GuardOpts} {m next : GMsg} (st : GuardState)
    (hsan : sanitizedNext opts m = some next) (hTR : isToolResultMsg next = false) :
    guardedAppend opts st m = appendNonToolResultStep opts st next := by
  unfold guardedAppend
  rw [hsan]
  simp only
  rw [if_neg (by rw [hTR]; exact Bool.false_ne_true)]

/-- Persisting a non-error tool result through the guard appends exactly
the size-capped message and deletes its id from the pending map. -/
lemma guardedAppend_toolResult_plain {opts : GuardOpts}
    (hTM : opts.transformMessage = none) (hTRm : opts.transformToolResult = none)
    (hBW : opts.beforeWrite = none) (st : GuardState) (tc tn : Option String)
    (isyn : Bool) (content : List Block) :
    guardedAppend opts st (.toolResult tc tn false isyn content)
      = { pending := match tc with
            | some i => mapDelete st.pending i
            | none => st.pending,
          transcript := st.transcript
            ++ [capToolResultSize opts.hardMax (.toolResult tc tn false isyn content)] } := by
  rw [@guardedAppend_some_toolResult _ (.toolResult tc tn false isyn content)
      (.toolResult tc tn false isyn content) st rfl rfl,
    appendToolResultStep_plain hTM hTRm hBW]
  by_cases h : totalTextChars content ≤ opts.hardMax
  · rw [cap_of_le h, annotate_not_error]
  · rw [cap_of_gt h, annotate_not_error]

end Guard

/-- C1 — for every assistant tool-call id in the persisted transcript, a
tool result with that id (real, or a synthetic `isSynthetic=true`
placeholder generated by the flush) is persisted before the next
non-tool-result message; equivalently, after an append of a
non-tool-result message the pending map holds exactly the ids introduced
by that very message (and a sanitized-away assistant leaves it empty).
Holds for every sanitizer, under the default configuration (synthetic
results allowed, no persistence transforms, no before-write hook). -/
theorem claim_C1_tool_call_pairing (opts : Guard.GuardOpts)
    (hA : opts.allowSynthetic = true) (hTM : opts.transformMessage = none)
    (hTR : opts.transformToolResult = none) (hBW : opts.beforeWrite = none) :
    (∀ msgs : List Guard.GMsg,
      Guard.pairedOk (Guard.runGuard opts msgs).transcript = true)
    ∧ (∀ (st : Guard.GuardState) (m next : Guard.GMsg),
        Guard.sanitizedNext opts m = some next →
        Guard.isToolResultMsg next = false →
        (Guard.guardedAppend opts st m).pending
            = Guard.recordCalls [] (Guard.extractToolCallsFromAssistant next)
          ∧ ∀ k, (((Guard.guardedAppend opts st m).pending).any fun e => e.1 = k) = true →
              ∃ c ∈ Guard.extractToolCallsFromAssistant next, c.id = k)
    ∧ (∀ (st : Guard.GuardState) (m : Guard.GMsg),
        Guard.sanitizedNext opts m = none →
        (Guard.guardedAppend opts st m).pending = []) := by
  have hplain : Guard.plainOpts opts := ⟨hA, hTM, hTR, hBW⟩
  refine ⟨?_, ?_, ?_⟩
  · intro msgs
    exact Guard.pairedOk_of_strict_append Guard.flushMsgs_all_TR
      (Guard.guardInv_runGuard hplain msgs)
  · intro st m next hsan hTRn
    rw [Guard.guardedAppend_some_nonTR st hsan hTRn,
      Guard.appendNonToolResultStep_plain hplain st next]
    refine ⟨rfl, ?_⟩
    intro k hk
    simp only at hk
    rcases Guard.recordCalls_any_inv _ _ hk with h | h
    · simp at h
    · exact h
  · intro st m hsan
    rw [Guard.guardedAppend_none st hsan]
    by_cases hp : st.pending = []
    · rw [if_neg (fun h => h.2 hp)]
      exact hp
    · rw [if_pos ⟨hA, hp⟩, Guard.flush_plain hplain]

/-- Witness for C1: a concrete guarded run (tool call answered
synthetically before an `other` message) is paired, and appending an
assistant with a fresh tool call while an old id is pending leaves
exactly the new id in the pending map. -/
theorem claim_C1_tool_call_pairing_witness :
    Guard.pairedOk (Guard.runGuard (Guard.exampleOpts 1000)
        [Guard.GMsg.assistant [⟨"call-1", "edit"⟩],
         Guard.GMsg.toolResult (some "call-1") (some "edit") false false [],
         Guard.GMsg.assistant [⟨"call-2", "read"⟩],
         Guard.GMsg.other]).transcript = true
    ∧ (Guard.guardedAppend (Guard.exampleOpts 1000)
          ⟨[("old-1", some "read")], []⟩
          (Guard.GMsg.assistant [⟨"call-2", "write"⟩])).pending
        = Guard.recordCalls [] [⟨"call-2", "write"⟩] :=
  ⟨(claim_C1_tool_call_pairing (Guard.exampleOpts 1000) rfl rfl rfl rfl).1 _,
   ((claim_C1_tool_call_pairing (Guard.exampleOpts 1000) rfl rfl rfl rfl).2.1
      ⟨[("old-1", some "read")], []⟩ (Guard.GMsg.assistant [⟨"call-2", "write"⟩])
      (Guard.GMsg.assistant [⟨"call-2", "write"⟩]) rfl rfl).1⟩

/-- C2 (amended) — a non-error tool result is persisted through the
guard exactly as `capToolResultSize` leaves it; the persisted total text
size is bounded by `hardMax` plus `2000 + |suffix|` per text block
(because the per-block budget is clamped below at 2000 characters, the
original bound `hardMax + |suffix|` does not hold); an under-limit
message is unchanged; and every block is either unchanged or replaced by
a prefix of itself with the literal truncation suffix appended. -/
theorem claim_C2_size_cap (opts : Guard.GuardOpts)
    (hTM : opts.transformMessage = none) (hTR : opts.transformToolResult = none)
    (hBW : opts.beforeWrite = none)
    (st : Guard.GuardState) (tc tn : Option String) (isyn : Bool)
    (content : List Guard.Block) :
    (Guard.guardedAppend opts st (Guard.GMsg.toolResult tc tn false isyn content)).transcript
        = st.transcript
          ++ [Guard.capToolResultSize opts.hardMax
                (Guard.GMsg.toolResult tc tn false isyn content)]
    ∧ Guard.msgTotalText
          (Guard.capToolResultSize opts.hardMax
            (Guard.GMsg.toolResult tc tn false isyn content))
        ≤ opts.hardMax
          + Guard.numTextBlocks content * (2000 + Guard.GUARD_TRUNCATION_SUFFIX.length)
    ∧ (Guard.totalTextChars content ≤ opts.hardMax →
        Guard.capToolResultSize opts.hardMax (Guard.GMsg.toolResult tc tn false isyn content)
          = Guard.GMsg.toolResult tc tn false isyn content)
    ∧ (∀ i bIn, content.get? i = some bIn →
        (Guard.msgContent (Guard.capToolResultSize opts.hardMax
            (Guard.GMsg.toolResult tc tn false isyn content))).get? i = some bIn
        ∨ ∃ s k, bIn = Guard.Block.text s ∧ k ≤ s.length ∧
            (Guard.msgContent (Guard.capToolResultSize opts.hardMax
              (Guard.GMsg.toolResult tc tn false isyn content))).get? i
              = some (Guard.Block.text
                  ((⟨s.data.take k⟩ : String) ++ Guard.GUARD_TRUNCATION_SUFFIX))) := by
  refine ⟨?_, ?_, fun h => Guard.cap_of_le h, ?_⟩
  · rw [Guard.guardedAppend_toolResult_plain hTM hTR hBW]
  · by_cases h : Guard.totalTextChars content ≤ opts.hardMax
    · rw [Guard.cap_of_le h]
      calc Guard.msgTotalText (Guard.GMsg.toolResult tc tn false isyn content)
          = Guard.totalTextChars content := rfl
        _ ≤ opts.hardMax := h
        _ ≤ _ := Nat.le_add_right _ _
    · rw [Guard.cap_of_gt h]
      exact Guard.capped_total_le opts.hardMax content
  · intro i bIn hin
    by_cases h : Guard.totalTextChars content ≤ opts.hardMax
    · rw [Guard.cap_of_le h]
      exact Or.inl hin
    · rw [Guard.cap_of_gt h]
      have hmap : (Guard.msgContent
          (Guard.GMsg.toolResult tc tn false isyn
            (content.map (Guard.cappedBlock opts.hardMax (Guard.totalTextChars content))))).get? i
          = (content.get? i).map
              (Guard.cappedBlock opts.hardMax (Guard.totalTextChars content)) := by
        show (content.map _).get? i = _
        exact List.get?_map _ _ _
      rw [hmap, hin, Option.map_some']
      cases bIn with
      | nonText => exact Or.inl rfl
      | text s =>
        by_cases hb : s.length ≤ Guard.blockBudgetFor opts.hardMax
            (Guard.totalTextChars content) s.length
        · left
          show some (Guard.cappedBlock _ _ (Guard.Block.text s)) = _
          unfold Guard.cappedBlock
          simp only
          rw [if_pos hb]
        · right
          refine ⟨s, Guard.cutPointFor s (Guard.blockBudgetFor opts.hardMax
            (Guard.totalTextChars content) s.length), rfl, ?_, ?_⟩
          · exact le_trans (Guard.cutPointFor_le s _) (le_of_not_le hb)
          · show some (Guard.cappedBlock _ _ (Guard.Block.text s)) = _
            unfold Guard.cappedBlock
            simp only
            rw [if_neg hb]

set_option maxRecDepth 8192 in
/-- Counterexample to C2 as stated: with the hard cap configured at 10,
a single 200-character text block passes the guard entirely unchanged
(its block budget is clamped below at 2000 characters), so the persisted
tool-result total of 200 exceeds `hardMax + |suffix| = 10 + 151`, and no
block was truncated even though the incoming total exceeded the limit. -/
theorem claim_C2_size_cap_counterexample :
    (Guard.guardedAppend (Guard.exampleOpts 10) ⟨[], []⟩
        (Guard.GMsg.toolResult (some "call-1") none false false
          [Guard.Block.text (String.mk (List.replicate 200 'a'))])).transcript
      = [Guard.GMsg.toolResult (some "call-1") none false false
          [Guard.Block.text (String.mk (List.replicate 200 'a'))]]
    ∧ (Guard.exampleOpts 10).hardMax + Guard.GUARD_TRUNCATION_SUFFIX.length
        < Guard.msgTotalText
            (Guard.GMsg.toolResult (some "call-1") none false false
              [Guard.Block.text (String.mk (List.replicate 200 'a'))]) := by
  constructor
  · decide
  · decide

set_option maxRecDepth 8192 in
/-- Witness for C2 (amended) at a concrete input: an over-limit
message through the guard with `hardMax = 100`. -/
theorem claim_C2_size_cap_witness :
    (Guard.guardedAppend (Guard.exampleOpts 100) ⟨[], []⟩
        (Guard.GMsg.toolResult (some "call-9") none false false
          [Guard.Block.text (String.mk (List.replicate 300 'b'))])).transcript
      = [Guard.capToolResultSize 100
          (Guard.GMsg.toolResult (some "call-9") none false false
            [Guard.Block.text (String.mk (List.replicate 300 'b'))])]
    ∧ Guard.msgTotalText
        (Guard.capToolResultSize 100
          (Guard.GMsg.toolResult (some "call-9") none false false
            [Guard.Block.text (String.mk (List.replicate 300 'b'))]))
      ≤ 100 + 1 * (2000 + Guard.GUARD_TRUNCATION_SUFFIX.length) := by
  have h := claim_C2_size_cap (Guard.exampleOpts 100) rfl rfl rfl ⟨[], []⟩
    (some "call-9") none false [Guard.Block.text (String.mk (List.replicate 300 'b'))]
  refine ⟨h.1, le_trans h.2.1 ?_⟩
  decide

namespace Feishu

/-! ### Store lookup lemmas -/

lemma find?_cons_pos {l : List Task} {x : Task} {p : Task → Bool} (h : p x = true) :
    (x :: l).find? p = some x := by
  simp [List.find?_cons, h]

lemma find?_cons_neg {l : List Task} {x : Task} {p : Task → Bool} (h : p x = false) :
    (x :: l).find? p = l.find? p := by
  simp [List.find?_cons, h]

lemma find?_id_eq {l : List Task} {i : String} {t : Task}
    (h : (l.find? fun u => u.id = i) = some t) : t.id = i := by
  have := List.find?_some h
  simpa using this

lemma mem_of_find? {l : List Task} {p : Task → Bool} {t : Task}
    (h : l.find? p = some t) : t ∈ l :=
  List.mem_of_find?_eq_some h

lemma find?_replace_of_any {t : Task} :
    ∀ (l : List Task), (l.any fun u => u.id = t.id) = true →
      ((l.map fun u => if u.id = t.id then t else u).find? fun u => u.id = t.id)
        = some t := by
  intro l
  induction l with
  | nil => intro h; simp at h
  | cons x xs ih =>
    intro h
    by_cases hx : x.id = t.id
    · rw [List.map_cons, if_pos hx]
      exact find?_cons_pos (by simp)
    · rw [List.map_cons, if_neg hx, find?_cons_neg (by simp [hx])]
      rw [List.any_cons, Bool.or_eq_true] at h
      rcases h with h | h
      · simp [hx] at h
      · exact ih h

lemma find?_append_singleton_self {t : Task} :
    ∀ (l : List Task), (∀ u ∈ l, ¬ u.id = t.id) →
      ((l ++ [t]).find? fun u => u.id = t.id) = some t := by
  intro l
  induction l with
  | nil => intro _; exact find?_cons_pos (by simp)
  | cons x xs ih =>
    intro h
    rw [List.cons_append, find?_cons_neg (by simp [h x (List.mem_cons_self x xs)])]
    exact ih fun u hu => h u (List.mem_cons_of_mem x hu)

lemma find?_upsert_self (s : Store) (t : Task) :
    ((upsertTask s t).tasks.find? fun u => u.id = t.id) = some t := by
  unfold upsertTask
  by_cases hany : (s.tasks.any fun u => u.id = t.id) = true
  · rw [if_pos hany]
    exact find?_replace_of_any s.tasks hany
  · rw [if_neg hany]
    rw [Bool.not_eq_true, List.any_eq_false] at hany
    exact find?_append_singleton_self s.tasks fun u hu => by simpa using hany u hu

lemma find?_replace_other {t : Task} {tid : String} (hne : tid ≠ t.id) :
    ∀ (l : List Task),
      ((l.map fun u => if u.id = t.id then t else u).find? fun u => u.id = tid)
        = l.find? fun u => u.id = tid := by
  intro l
  induction l with
  | nil => rfl
  | cons x xs ih =>
    by_cases hx : x.id = t.id
    · have hxne : ¬ (x.id = tid) := fun hc => hne (by rw [← hc, hx])
      have htne : ¬ (t.id = tid) := fun hc => hne hc.symm
      rw [List.map_cons, if_pos hx, find?_cons_neg (by simp [htne]),
        find?_cons_neg (by simp [hxne])]
      exact ih
    · rw [List.map_cons, if_neg hx]
      by_cases hxt : x.id = tid
      · rw [find?_cons_pos (by simp [hxt]), find?_cons_pos (by simp [hxt])]
      · rw [find?_cons_neg (by simp [hxt]), find?_cons_neg (by simp [hxt])]
        exact ih

lemma find?_append_singleton_other {t : Task} {tid : String} (hne : tid ≠ t.id) :
    ∀ (l : List Task),
      ((l ++ [t]).find? fun u => u.id = tid) = l.find? fun u => u.id = tid := by
  intro l
  induction l with
  | nil =>
    rw [List.nil_append]
    have htne : ¬ (t.id = tid) := fun hc => hne hc.symm
    rw [find?_cons_neg (by simp [htne])]
  | cons x xs ih =>
    by_cases hxt : x.id = tid
    · rw [List.cons_append, find?_cons_pos (by simp [hxt]), find?_cons_pos (by simp [hxt])]
    · rw [List.cons_append, find?_cons_neg (by simp [hxt]), find?_cons_neg (by simp [hxt])]
      exact ih

lemma find?_upsert_other {s : Store} {t : Task} {tid : String} (h : tid ≠ t.id) :
    ((upsertTask s t).tasks.find? fun u => u.id = tid)
      = s.tasks.find? fun u => u.id = tid := by
  unfold upsertTask
  by_cases hany : (s.tasks.any fun u => u.id = t.id) = true
  · rw [if_pos hany]
    exact find?_replace_other h s.tasks
  · rw [if_neg hany]
    exact find?_append_singleton_other h s.tasks

lemma find?_filter_ne {taskId tid : String} (h : tid ≠ taskId) :
    ∀ (l : List Task),
      ((l.filter fun u => u.id ≠ taskId).find? fun u => u.id = tid)
        = l.find? fun u => u.id = tid := by
  intro l
  induction l with
  | nil => rfl
  | cons x xs ih =>
    by_cases hx : x.id = taskId
    · have hxt : ¬ (x.id = tid) := fun hc => h (by rw [← hc, hx])
      rw [List.filter_cons, if_neg (by simp [hx]), find?_cons_neg (by simp [hxt])]
      exact ih
    · rw [List.filter_cons, if_pos (by simpa using hx)]
      by_cases hxt : x.id = tid
      · rw [find?_cons_pos (by simp [hxt]), find?_cons_pos (by simp [hxt])]
      · rw [find?_cons_neg (by simp [hxt]), find?_cons_neg (by simp [hxt])]
        exact ih

lemma find?_removeTask_other {s : Store} {taskId tid : String} (h : tid ≠ taskId) :
    ((removeTask s taskId).tasks.find? fun u => u.id = tid)
      = s.tasks.find? fun u => u.id = tid := by
  unfold removeTask
  exact find?_filter_ne h s.tasks

lemma tasks_setLastInterruptible (s : Store) (c i : String) :
    (setLastInterruptible s c i).tasks = s.tasks := rfl

lemma find?_setStatus_self (s : Store) (a : StatusArgs) (now : Int) (r : Option Reaction) :
    ((setFeishuStatusStore s a now r).tasks.find? fun u => u.id = a.taskId)
      = some (statusTask (s.tasks.find? fun t => t.id = a.taskId) a now r) := by
  unfold setFeishuStatusStore
  have hid : (statusTask (s.tasks.find? fun t => t.id = a.taskId) a now r).id = a.taskId := rfl
  rw [← hid]
  exact find?_upsert_self s _

lemma find?_setStatus_other {s : Store} {a : StatusArgs} {now : Int} {r : Option Reaction}
    {tid : String} (h : tid ≠ a.taskId) :
    ((setFeishuStatusStore s a now r).tasks.find? fun u => u.id = tid)
      = s.tasks.find? fun u => u.id = tid := by
  unfold setFeishuStatusStore
  exact find?_upsert_other h

lemma mem_upsert {s : Store} {t u : Task} (h : u ∈ (upsertTask s t).tasks) :
    u ∈ s.tasks ∨ u = t := by
  unfold upsertTask at h
  by_cases hany : (s.tasks.any fun v => v.id = t.id) = true
  · rw [if_pos hany] at h
    simp only [List.mem_map] at h
    obtain ⟨x, hx, hxe⟩ := h
    by_cases hxt : x.id = t.id
    · rw [if_pos hxt] at hxe
      exact Or.inr hxe.symm
    · rw [if_neg hxt] at hxe
      exact Or.inl (hxe ▸ hx)
  · rw [if_neg hany] at h
    simp only [List.mem_append, List.mem_singleton] at h
    exact h

lemma mem_removeTask {s : Store} {taskId : String} {u : Task}
    (h : u ∈ (removeTask s taskId).tasks) : u ∈ s.tasks :=
  List.mem_of_mem_filter h

/-! ### Bounded resume attempts -/

/-- Every stored task has at most 2 resume attempts. -/
def attemptsBounded (s : Store) : Prop :=
  ∀ t ∈ s.tasks, t.resumeAttempts.getD 0 ≤ 2

lemma attemptsBounded_upsert {s : Store} {t : Task} (hs : attemptsBounded s)
    (ht : t.resumeAttempts.getD 0 ≤ 2) : attemptsBounded (upsertTask s t) := by
  intro u hu
  rcases mem_upsert hu with h | rfl
  · exact hs u h
  · exact ht

lemma attemptsBounded_removeTask {s : Store} {taskId : String} (hs : attemptsBounded s) :
    attemptsBounded (removeTask s taskId) :=
  fun u hu => hs u (mem_removeTask hu)

lemma attemptsBounded_setLast {s : Store} {c i : String} (hs : attemptsBounded s) :
    attemptsBounded (setLastInterruptible s c i) := by
  intro u hu
  rw [tasks_setLastInterruptible] at hu
  exact hs u hu

lemma statusTask_attempts_le {s : Store} (hs : attemptsBounded s) (a : StatusArgs)
    (now : Int) (r : Option Reaction) :
    (statusTask (s.tasks.find? fun t => t.id = a.taskId) a now r).resumeAttempts.getD 0
      ≤ 2 := by
  show (some (((s.tasks.find? fun t => t.id = a.taskId).bind (·.resumeAttempts)).getD 0)).getD 0
    ≤ 2
  rw [Option.getD_some]
  cases hf : s.tasks.find? fun t => t.id = a.taskId with
  | none => simp
  | some p =>
    have := hs p (mem_of_find? hf)
    simpa using this

lemma attemptsBounded_setStatus {s : Store} (hs : attemptsBounded s) (a : StatusArgs)
    (now : Int) (r : Option Reaction) :
    attemptsBounded (setFeishuStatusStore s a now r) :=
  attemptsBounded_upsert hs (statusTask_attempts_le hs a now r)

lemma attemptsBounded_applyResume {s : Store} {ctx : InboundCtx} {last : Task}
    (hs : attemptsBounded s) (hlast : last.resumeAttempts.getD 0 < 2)
    (now : Int) (r : Option Reaction) :
    attemptsBounded (applyResume s ctx last now r) := by
  unfold applyResume
  refine attemptsBounded_setStatus (attemptsBounded_setLast (attemptsBounded_upsert hs ?_)) _ _ _
  show (some (last.resumeAttempts.getD 0 + 1)).getD 0 ≤ 2
  rw [Option.getD_some]
  omega

lemma attemptsBounded_onIdle {s : Store} (hs : attemptsBounded s) (ctx : InboundCtx)
    (anchor taskId : String) (sawReplyStart : Bool) (now : Int) (r : Option Reaction) :
    attemptsBounded (onIdlePure s ctx anchor taskId sawReplyStart now r) := by
  unfold onIdlePure
  split
  · exact hs
  · split
    · exact hs
    · split
      · exact hs
      · exact attemptsBounded_removeTask (attemptsBounded_setStatus hs _ _ _)

lemma attemptsBounded_postDispatch {s : Store} (hs : attemptsBounded s) (ctx : InboundCtx)
    (anchor taskId : String) (outcome : DispatchOutcome) (now : Int)
    (rxn : TaskState → Option Reaction) :
    attemptsBounded (postDispatchPure s ctx anchor taskId outcome now rxn) := by
  unfold postDispatchPure
  split
  · split
    · exact attemptsBounded_setStatus hs _ _ _
    · exact attemptsBounded_setLast (attemptsBounded_setStatus hs _ _ _)
  · exact hs

/-- `resumeDecision` only accepts resumable tasks: interrupted or
failed, fewer than 2 attempts, sender-compatible in groups, and it is
exactly the recorded last-interruptible task of the chat. -/
lemma resumeDecision_sound {s : Store} {ctx : InboundCtx} {last : Task}
    (h : resumeDecision s ctx = some last) :
    (last.state = .interrupted ∨ last.state = .failed)
    ∧ last.resumeAttempts.getD 0 < 2
    ∧ (ctx.isGroup → last.userOpenId = none ∨ last.userOpenId = some ctx.senderOpenId)
    ∧ getLastInterruptibleTask s ctx.chatId = some last := by
  unfold resumeDecision at h
  cases hg : getLastInterruptibleTask s ctx.chatId with
  | none => rw [hg] at h; cases h
  | some t =>
    rw [hg] at h
    simp only at h
    by_cases hcond : (t.state = .interrupted ∨ t.state = .failed)
        ∧ (t.resumeAttempts.getD 0) < 2
        ∧ (¬ ctx.isGroup ∨ t.userOpenId = none ∨ t.userOpenId = some ctx.senderOpenId)
    · rw [if_pos hcond] at h
      rw [Option.some_inj] at h
      subst h
      refine ⟨hcond.1, hcond.2.1, ?_, rfl⟩
      intro hgrp
      rcases hcond.2.2 with h1 | h2
      · exact absurd hgrp h1
      · exact h2
    · rw [if_neg hcond] at h
      cases h

lemma attemptsBounded_runTaskFlow {s2 : Store} (hs2 : attemptsBounded s2)
    (ctx : InboundCtx) (taskId anchor : String) (outcome : DispatchOutcome) (now : Int)
    (rxn : TaskState → Option Reaction) :
    attemptsBounded (runTaskFlow s2 ctx taskId anchor outcome now rxn) := by
  unfold runTaskFlow
  refine attemptsBounded_postDispatch (attemptsBounded_onIdle ?_ _ _ _ _ _ _) _ _ _ _ _ _
  by_cases hsrs : outcome.sawReplyStart = true
  · rw [if_pos hsrs]
    exact attemptsBounded_setStatus (attemptsBounded_setStatus hs2 _ _ _) _ _ _
  · rw [if_neg hsrs]
    exact attemptsBounded_setStatus hs2 _ _ _

lemma attemptsBounded_handleInbound {s : Store} (hs : attemptsBounded s) (ctx : InboundCtx)
    (wantsContinue : Bool) (freshId : String) (outcome : DispatchOutcome) (now : Int)
    (rxn : TaskState → Option Reaction) :
    attemptsBounded (handleInboundPure s ctx wantsContinue freshId outcome now rxn) := by
  unfold handleInboundPure
  by_cases hw : wantsContinue = true
  · rw [if_pos hw]
    cases hd : resumeDecision s ctx with
    | none => exact hs
    | some last =>
      simp only
      exact attemptsBounded_runTaskFlow
        (attemptsBounded_applyResume hs (resumeDecision_sound hd).2.1 now (rxn .received))
        _ _ _ _ _ _
  · rw [if_neg hw]
    simp only
    exact attemptsBounded_runTaskFlow (attemptsBounded_setStatus hs _ _ _) _ _ _ _ _ _

lemma attemptsBounded_reconcile {s : Store} (hs : attemptsBounded s) (accountId : String)
    (maxAgeMs now : Int) (rxn : Task → Option Reaction) :
    attemptsBounded (reconcilePure s accountId maxAgeMs now rxn) := by
  unfold reconcilePure
  have hgen : ∀ (l : List Task), (∀ t ∈ l, t.resumeAttempts.getD 0 ≤ 2) →
      ∀ (acc : Store), attemptsBounded acc →
      attemptsBounded (l.foldl
        (fun acc task =>
          if task.accountId ≠ accountId then acc
          else if task.interruptedHandled.getD false then acc
          else if ¬ (task.state = .queued ∨ task.state = .working ∨ task.state = .waiting)
            then acc
          else if now - task.updatedAtMs > maxAgeMs then acc
          else match rxn task with
            | none => acc
            | some r =>
              setLastInterruptible
                (upsertTask acc
                  { task with
                    state := .interrupted
                    reaction := some r
                    interruptedHandled := some true
                    updatedAtMs := now })
                task.chatId task.id)
        acc) := by
    intro l
    induction l with
    | nil => exact fun _ acc hacc => hacc
    | cons task rest ih =>
      intro hl acc hacc
      have htask := hl task (List.mem_cons_self task rest)
      have hrest := fun t ht => hl t (List.mem_cons_of_mem task ht)
      refine ih hrest _ ?_
      show attemptsBounded
        (if task.accountId ≠ accountId then acc
         else if task.interruptedHandled.getD false then acc
         else if ¬ (task.state = .queued ∨ task.state = .working ∨ task.state = .waiting)
           then acc
         else if now - task.updatedAtMs > maxAgeMs then acc
         else match rxn task with
           | none => acc
           | some r =>
             setLastInterruptible
               (upsertTask acc
                 { task with
                   state := .interrupted
                   reaction := some r
                   interruptedHandled := some true
                   updatedAtMs := now })
               task.chatId task.id)
      by_cases h1 : task.accountId ≠ accountId
      · rw [if_pos h1]
        exact hacc
      · rw [if_neg h1]
        by_cases h2 : task.interruptedHandled.getD false = true
        · rw [if_pos h2]
          exact hacc
        · rw [if_neg h2]
          by_cases h3 : ¬ (task.state = .queued ∨ task.state = .working ∨ task.state = .waiting)
          · rw [if_pos h3]
            exact hacc
          · rw [if_neg h3]
            by_cases h4 : now - task.updatedAtMs > maxAgeMs
            · rw [if_pos h4]
              exact hacc
            · rw [if_neg h4]
              cases hr : rxn task with
              | none => exact hacc
              | some r => exact attemptsBounded_setLast (attemptsBounded_upsert hacc htask)
  exact hgen s.tasks hs s hs

lemma attemptsBounded_finalize {s : Store} (hs : attemptsBounded s)
    (accountId replyToId : Option String) (r : Option Reaction) :
    attemptsBounded (maybeFinalizeWaitingInFlightTask s accountId replyToId r).1 := by
  unfold maybeFinalizeWaitingInFlightTask
  simp only
  by_cases ha : trimStr (replyToId.getD "") = ""
  · rw [if_pos ha]
    exact hs
  · rw [if_neg ha]
    cases hf : s.tasks.find? fun t => t.messageId = trimStr (replyToId.getD "") with
    | none => exact hs
    | some task =>
      simp only
      by_cases hguard : task.state ≠ TaskState.waiting
          ∨ task.accountId ≠ accountId.getD "default"
      · rw [if_pos hguard]
        exact hs
      · rw [if_neg hguard]
        cases r with
        | none => exact hs
        | some rr => exact attemptsBounded_removeTask hs

/-! ### Frame lemmas: other tasks are untouched -/

lemma find?_setLast {s : Store} {c i tid : String} :
    ((setLastInterruptible s c i).tasks.find? fun u => u.id = tid)
      = s.tasks.find? fun u => u.id = tid := rfl

lemma find?_onIdle_other {s : Store} {ctx : InboundCtx} {anchor taskId tid : String}
    {srs : Bool} {now : Int} {r : Option Reaction} (h : tid ≠ taskId) :
    ((onIdlePure s ctx anchor taskId srs now r).tasks.find? fun u => u.id = tid)
      = s.tasks.find? fun u => u.id = tid := by
  unfold onIdlePure
  by_cases hsrs : ¬ srs = true
  · rw [if_pos hsrs]
  · rw [if_neg hsrs]
    cases hf : s.tasks.find? fun t => t.id = taskId with
    | none => rfl
    | some task =>
      simp only
      split
      · rfl
      · rw [find?_removeTask_other h, find?_setStatus_other h]

lemma find?_postDispatch_other {s : Store} {ctx : InboundCtx} {anchor taskId tid : String}
    {outcome : DispatchOutcome} {now : Int} {rxn : TaskState → Option Reaction}
    (h : tid ≠ taskId) :
    ((postDispatchPure s ctx anchor taskId outcome now rxn).tasks.find? fun u => u.id = tid)
      = s.tasks.find? fun u => u.id = tid := by
  unfold postDispatchPure
  by_cases h0 : outcome.finalCount = 0
  · rw [if_pos h0]
    by_cases hq : outcome.queuedFinal = true
    · rw [if_pos hq, find?_setStatus_other h]
    · rw [if_neg hq]
      show ((setLastInterruptible _ _ _).tasks.find? fun u => u.id = tid) = _
      rw [find?_setLast, find?_setStatus_other h]
  · rw [if_neg h0]

lemma find?_runTaskFlow_other {s2 : Store} {ctx : InboundCtx} {taskId anchor tid : String}
    {outcome : DispatchOutcome} {now : Int} {rxn : TaskState → Option Reaction}
    (h : tid ≠ taskId) :
    ((runTaskFlow s2 ctx taskId anchor outcome now rxn).tasks.find? fun u => u.id = tid)
      = s2.tasks.find? fun u => u.id = tid := by
  unfold runTaskFlow
  rw [find?_postDispatch_other h, find?_onIdle_other h]
  by_cases hsrs : outcome.sawReplyStart = true
  · rw [if_pos hsrs, find?_setStatus_other h, find?_setStatus_other h]
  · rw [if_neg hsrs, find?_setStatus_other h]

lemma find?_applyResume_other {s : Store} {ctx : InboundCtx} {last : Task} {now : Int}
    {r : Option Reaction} {tid : String} (h : tid ≠ last.id) :
    ((applyResume s ctx last now r).tasks.find? fun u => u.id = tid)
      = s.tasks.find? fun u => u.id = tid := by
  unfold applyResume
  rw [find?_setStatus_other h]
  show ((setLastInterruptible _ _ _).tasks.find? fun u => u.id = tid) = _
  rw [find?_setLast]
  exact find?_upsert_other h

lemma find?_applyNewTask_other {s : Store} {ctx : InboundCtx} {freshId : String}
    {now : Int} {r : Option Reaction} {tid : String} (h : tid ≠ freshId) :
    ((applyNewTask s ctx freshId now r).tasks.find? fun u => u.id = tid)
      = s.tasks.find? fun u => u.id = tid := by
  unfold applyNewTask
  exact find?_setStatus_other h

/-- Frame property of one inbound handling: any task other than the
flow's own (fresh or resumed) task keeps its exact record. -/
lemma find?_handleInbound_frame {s : Store} {ctx : InboundCtx} {wantsContinue : Bool}
    {freshId : String} {outcome : DispatchOutcome} {now : Int}
    {rxn : TaskState → Option Reaction} {tid : String}
    (hfresh : tid ≠ freshId)
    (hres : ∀ last, resumeDecision s ctx = some last → tid ≠ last.id) :
    ((handleInboundPure s ctx wantsContinue freshId outcome now rxn).tasks.find?
        fun u => u.id = tid)
      = s.tasks.find? fun u => u.id = tid := by
  unfold handleInboundPure
  by_cases hw : wantsContinue = true
  · rw [if_pos hw]
    cases hd : resumeDecision s ctx with
    | none => rfl
    | some last =>
      simp only
      rw [find?_runTaskFlow_other (hres last hd), find?_applyResume_other (hres last hd)]
  · rw [if_neg hw]
    simp only
    rw [find?_runTaskFlow_other hfresh, find?_applyNewTask_other hfresh]

/-- Tasks of a store with `Nodup` ids are determined by their id. -/
lemma eq_of_mem_of_id_eq {s : Store} (hnd : (s.tasks.map (·.id)).Nodup)
    {a b : Task} (ha : a ∈ s.tasks) (hb : b ∈ s.tasks) (hid : a.id = b.id) : a = b :=
  List.inj_on_of_nodup_map hnd ha hb hid

/-- Frame property of boot reconciliation: a task in
`{done, failed, interrupted}` keeps its exact record (reconciliation
only rewrites fresh unhandled tasks in `{queued, working, waiting}`). -/
lemma find?_reconcile_forbidden {s : Store} {accountId : String} {maxAgeMs now : Int}
    {rxn : Task → Option Reaction} {tid : String} {t : Task}
    (hnd : (s.tasks.map (·.id)).Nodup)
    (hfind : (s.tasks.find? fun u => u.id = tid) = some t)
    (hforb : t.state = .done ∨ t.state = .failed ∨ t.state = .interrupted) :
    ((reconcilePure s accountId maxAgeMs now rxn).tasks.find? fun u => u.id = tid)
      = some t := by
  unfold reconcilePure
  have hmem := mem_of_find? hfind
  have htid := find?_id_eq hfind
  have hgen : ∀ (l : List Task), (∀ u ∈ l, u ∈ s.tasks) →
      ∀ (acc : Store), ((acc.tasks.find? fun u => u.id = tid) = some t) →
      (((l.foldl
        (fun acc task =>
          if task.accountId ≠ accountId then acc
          else if task.interruptedHandled.getD false then acc
          else if ¬ (task.state = .queued ∨ task.state = .working ∨ task.state = .waiting)
            then acc
          else if now - task.updatedAtMs > maxAgeMs then acc
          else match rxn task with
            | none => acc
            | some r =>
              setLastInterruptible
                (upsertTask acc
                  { task with
                    state := .interrupted
                    reaction := some r
                    interruptedHandled := some true
                    updatedAtMs := now })
                task.chatId task.id)
        acc).tasks.find? fun u => u.id = tid) = some t) := by
    intro l
    induction l with
    | nil => exact fun _ acc hacc => hacc
    | cons task rest ih =>
      intro hl acc hacc
      have htaskmem := hl task (List.mem_cons_self task rest)
      have hrest := fun u hu => hl u (List.mem_cons_of_mem task hu)
      refine ih hrest _ ?_
      show ((if task.accountId ≠ accountId then acc
         else if task.interruptedHandled.getD false then acc
         else if ¬ (task.state = .queued ∨ task.state = .working ∨ task.state = .waiting)
           then acc
         else if now - task.updatedAtMs > maxAgeMs then acc
         else match rxn task with
           | none => acc
           | some r =>
             setLastInterruptible
               (upsertTask acc
                 { task with
                   state := .interrupted
                   reaction := some r
                   interruptedHandled := some true
                   updatedAtMs := now })
               task.chatId task.id).tasks.find? fun u => u.id = tid) = some t
      by_cases h1 : task.accountId ≠ accountId
      · rw [if_pos h1]
        exact hacc
      · rw [if_neg h1]
        by_cases h2 : task.interruptedHandled.getD false = true
        · rw [if_pos h2]
          exact hacc
        · rw [if_neg h2]
          by_cases h3 : ¬ (task.state = .queued ∨ task.state = .working ∨ task.state = .waiting)
          · rw [if_pos h3]
            exact hacc
          · rw [if_neg h3]
            by_cases h4 : now - task.updatedAtMs > maxAgeMs
            · rw [if_pos h4]
              exact hacc
            · rw [if_neg h4]
              cases hr : rxn task with
              | none => exact hacc
              | some r =>
                have htne : tid ≠ task.id := by
                  intro hcontra
                  have : task = t :=
                    eq_of_mem_of_id_eq hnd htaskmem hmem (by rw [← hcontra, htid])
                  rw [this] at h3
                  rcases hforb with hf | hf | hf <;> simp [hf] at h3
                show (((setLastInterruptible (upsertTask acc _) task.chatId
                  task.id)).tasks.find? fun u => u.id = tid) = some t
                rw [find?_setLast]
                rw [show ({ task with
                    state := TaskState.interrupted
                    reaction := some r
                    interruptedHandled := some true
                    updatedAtMs := now } : Task).id = task.id from rfl] at *
                refine Eq.trans (find?_upsert_other ?_) hacc
                exact htne
  exact hgen s.tasks (fun u hu => hu) s hfind

/-- Frame property of the outbound auto-finalization: a task in
`{done, failed, interrupted}` keeps its exact record (only a `waiting`
task is ever removed). -/
lemma find?_finalize_forbidden {s : Store} {accountId replyToId : Option String}
    {r : Option Reaction} {tid : String} {t : Task}
    (hnd : (s.tasks.map (·.id)).Nodup)
    (hfind : (s.tasks.find? fun u => u.id = tid) = some t)
    (hforb : t.state = .done ∨ t.state = .failed ∨ t.state = .interrupted) :
    (((maybeFinalizeWaitingInFlightTask s accountId replyToId r).1).tasks.find?
        fun u => u.id = tid) = some t := by
  unfold maybeFinalizeWaitingInFlightTask
  simp only
  by_cases ha : trimStr (replyToId.getD "") = ""
  · rw [if_pos ha]
    exact hfind
  · rw [if_neg ha]
    cases hf : s.tasks.find? fun u => u.messageId = trimStr (replyToId.getD "") with
    | none => exact hfind
    | some task =>
      simp only
      by_cases hguard : task.state ≠ TaskState.waiting
          ∨ task.accountId ≠ accountId.getD "default"
      · rw [if_pos hguard]
        exact hfind
      · rw [if_neg hguard]
        cases r with
        | none => exact hfind
        | some rr =>
          have hw : task.state = TaskState.waiting := by
            by_contra hc
            exact hguard (Or.inl hc)
          have htne : tid ≠ task.id := by
            intro hcontra
            have : task = t :=
              eq_of_mem_of_id_eq hnd (mem_of_find? hf) (mem_of_find? hfind)
                (by rw [← hcontra, find?_id_eq hfind])
            rw [← this, hw] at hforb
            rcases hforb with hx | hx | hx <;> cases hx
          show ((removeTask s task.id).tasks.find? fun u => u.id = tid) = some t
          rw [find?_removeTask_other htne]
          exact hfind

/-! ### Effect of an accepted resume -/

/-- `setFeishuStatus` makes the rebuilt record findable under the target id,
phrased against an abstract previous record. -/
lemma find?_setStatus_prev (s : Store) (a : StatusArgs) (now : Int) (r : Option Reaction)
    (prev : Option Task) (hp : (s.tasks.find? fun t => t.id = a.taskId) = prev) :
    ((setFeishuStatusStore s a now r).tasks.find? fun u => u.id = a.taskId)
      = some (statusTask prev a now r) := by
  subst hp
  exact find?_setStatus_self s a now r

/-- An accepted resume keeps the task's id, anchor `messageId` and
`originalText`, increments `resumeAttempts`, and moves the task to
`received`. -/
lemma applyResume_effect (store : Store) (ctx : InboundCtx) (last : Task) (now : Int)
    (r : Option Reaction) :
    ∃ t', ((applyResume store ctx last now r).tasks.find? fun u => u.id = last.id) = some t'
      ∧ t'.id = last.id ∧ t'.state = .received ∧ t'.messageId = last.messageId
      ∧ t'.originalText = last.originalText
      ∧ t'.resumeAttempts = some (last.resumeAttempts.getD 0 + 1) := by
  have hfind : ((applyResume store ctx last now r).tasks.find? fun u => u.id = last.id)
      = some (statusTask
          (some { last with
            resumeAttempts := some ((last.resumeAttempts.getD 0) + 1)
            updatedAtMs := now
            interruptedHandled := some true })
          { accountId := ctx.accountId
            chatId := ctx.chatId
            chatType := if ctx.isGroup then .group else .direct
            userOpenId := some ctx.senderOpenId
            messageId := last.messageId
            taskId := last.id
            nextState := .received
            originalText := none
            truncated := none } now r) :=
    find?_setStatus_prev
      (setLastInterruptible
        (upsertTask store ({ last with resumeAttempts := some ((last.resumeAttempts.getD 0) + 1), updatedAtMs := now, interruptedHandled := some true }))
        ctx.chatId last.id)
      ({ accountId := ctx.accountId, chatId := ctx.chatId, chatType := if ctx.isGroup then .group else .direct, userOpenId := some ctx.senderOpenId, messageId := last.messageId, taskId := last.id, nextState := .received, originalText := none, truncated := none })
      now r
      (some ({ last with resumeAttempts := some ((last.resumeAttempts.getD 0) + 1), updatedAtMs := now, interruptedHandled := some true }))
      (find?_upsert_self store ({ last with resumeAttempts := some ((last.resumeAttempts.getD 0) + 1), updatedAtMs := now, interruptedHandled := some true }))
  exact ⟨_, hfind, rfl, rfl, rfl, rfl, rfl⟩

end Feishu

/-- C3: a task in `{done, failed, interrupted}` never changes state except
via an explicit "continue" resume. A resume is accepted only if the task
fetched via `lastInterruptibleByChatId[chatId]` is in
`{interrupted, failed}`, has `resumeAttempts < 2`, and — in group chats —
either carries no `userOpenId` or its `userOpenId` equals the sender. An
accepted resume keeps the task's id, anchor `messageId` and
`originalText`, increments `resumeAttempts`, and transitions the task to
`received`; consequently `resumeAttempts` never exceeds 2 for any task:
inbound handling, boot reconciliation and outbound auto-finalization all
preserve the bound, and the latter two leave every record in a forbidden
state exactly unchanged. -/
theorem claim_C3_state_machine_resume :
    (∀ (s : Feishu.Store) (ctx : Feishu.InboundCtx) (last : Feishu.Task),
      Feishu.resumeDecision s ctx = some last →
        (last.state = .interrupted ∨ last.state = .failed)
        ∧ last.resumeAttempts.getD 0 < 2
        ∧ (ctx.isGroup → last.userOpenId = none ∨ last.userOpenId = some ctx.senderOpenId)
        ∧ Feishu.getLastInterruptibleTask s ctx.chatId = some last)
    ∧ (∀ (s : Feishu.Store) (ctx : Feishu.InboundCtx) (last : Feishu.Task) (now : Int)
        (r : Option Feishu.Reaction),
        ∃ t', ((Feishu.applyResume s ctx last now r).tasks.find? fun u => u.id = last.id)
            = some t'
          ∧ t'.id = last.id ∧ t'.state = .received ∧ t'.messageId = last.messageId
          ∧ t'.originalText = last.originalText
          ∧ t'.resumeAttempts = some (last.resumeAttempts.getD 0 + 1))
    ∧ (∀ (s : Feishu.Store) (ctx : Feishu.InboundCtx) (wantsContinue : Bool)
        (freshId : String) (outcome : Feishu.DispatchOutcome) (now : Int)
        (rxn : Feishu.TaskState → Option Feishu.Reaction) (tid : String),
        tid ≠ freshId →
        (∀ last, Feishu.resumeDecision s ctx = some last → tid ≠ last.id) →
        ((Feishu.handleInboundPure s ctx wantsContinue freshId outcome now rxn).tasks.find?
            fun u => u.id = tid)
          = s.tasks.find? fun u => u.id = tid)
    ∧ (∀ (s : Feishu.Store) (accountId : String) (maxAgeMs now : Int)
        (rxn : Feishu.Task → Option Feishu.Reaction) (tid : String) (t : Feishu.Task),
        (s.tasks.map (·.id)).Nodup →
        (s.tasks.find? fun u => u.id = tid) = some t →
        (t.state = .done ∨ t.state = .failed ∨ t.state = .interrupted) →
        ((Feishu.reconcilePure s accountId maxAgeMs now rxn).tasks.find?
            fun u => u.id = tid) = some t)
    ∧ (∀ (s : Feishu.Store) (accountId replyToId : Option String)
        (r : Option Feishu.Reaction) (tid : String) (t : Feishu.Task),
        (s.tasks.map (·.id)).Nodup →
        (s.tasks.find? fun u => u.id = tid) = some t →
        (t.state = .done ∨ t.state = .failed ∨ t.state = .interrupted) →
        (((Feishu.maybeFinalizeWaitingInFlightTask s accountId replyToId r).1).tasks.find?
            fun u => u.id = tid) = some t)
    ∧ (∀ s : Feishu.Store, Feishu.attemptsBounded s →
        (∀ (ctx : Feishu.InboundCtx) (wantsContinue : Bool) (freshId : String)
          (outcome : Feishu.DispatchOutcome) (now : Int)
          (rxn : Feishu.TaskState → Option Feishu.Reaction),
          Feishu.attemptsBounded
            (Feishu.handleInboundPure s ctx wantsContinue freshId outcome now rxn))
        ∧ (∀ (accountId : String) (maxAgeMs now : Int)
            (rxn : Feishu.Task → Option Feishu.Reaction),
            Feishu.attemptsBounded (Feishu.reconcilePure s accountId maxAgeMs now rxn))
        ∧ (∀ (accountId replyToId : Option String) (r : Option Feishu.Reaction),
            Feishu.attemptsBounded
              (Feishu.maybeFinalizeWaitingInFlightTask s accountId replyToId r).1)) :=
  ⟨fun _ _ _ h => Feishu.resumeDecision_sound h,
   fun s ctx last now r => Feishu.applyResume_effect s ctx last now r,
   fun _ _ _ _ _ _ _ _ hfresh hres => Feishu.find?_handleInbound_frame hfresh hres,
   fun _ _ _ _ _ _ _ hnd hf hforb => Feishu.find?_reconcile_forbidden hnd hf hforb,
   fun _ _ _ _ _ _ hnd hf hforb => Feishu.find?_finalize_forbidden hnd hf hforb,
   fun _ hs =>
    ⟨fun ctx wc fid oc now rxn => Feishu.attemptsBounded_handleInbound hs ctx wc fid oc now rxn,
     fun a m now rxn => Feishu.attemptsBounded_reconcile hs a m now rxn,
     fun a rep r => Feishu.attemptsBounded_finalize hs a rep r⟩⟩

/-- Concrete run of C3 on the example store: the acceptance conditions
hold of the recorded interrupted task, the resume effect is realized, a
bystander task is untouched by inbound handling, reconciliation and
finalization leave the interrupted record unchanged, and the attempts
bound is preserved. -/
theorem claim_C3_state_machine_resume_witness :
    ((Feishu.exTask.state = .interrupted ∨ Feishu.exTask.state = .failed)
      ∧ Feishu.exTask.resumeAttempts.getD 0 < 2
      ∧ (Feishu.exCtx.isGroup → Feishu.exTask.userOpenId = none
          ∨ Feishu.exTask.userOpenId = some Feishu.exCtx.senderOpenId)
      ∧ Feishu.getLastInterruptibleTask Feishu.exStore Feishu.exCtx.chatId
          = some Feishu.exTask)
    ∧ (∃ t', ((Feishu.applyResume Feishu.exStore Feishu.exCtx Feishu.exTask 5 none).tasks.find?
          fun u => u.id = Feishu.exTask.id) = some t'
        ∧ t'.id = Feishu.exTask.id ∧ t'.state = .received
        ∧ t'.messageId = Feishu.exTask.messageId
        ∧ t'.originalText = Feishu.exTask.originalText
        ∧ t'.resumeAttempts = some (Feishu.exTask.resumeAttempts.getD 0 + 1))
    ∧ ((Feishu.handleInboundPure Feishu.exStore Feishu.exCtx true "fresh" Feishu.exOutcome 5
          (fun _ => none)).tasks.find? fun u => u.id = "t2")
        = (Feishu.exStore.tasks.find? fun u => u.id = "t2")
    ∧ ((Feishu.reconcilePure Feishu.exStore "default" 1000 5 (fun _ => none)).tasks.find?
          fun u => u.id = "t1") = some Feishu.exTask
    ∧ (((Feishu.maybeFinalizeWaitingInFlightTask Feishu.exStore (some "default") (some "m1")
          none).1).tasks.find? fun u => u.id = "t1") = some Feishu.exTask
    ∧ Feishu.attemptsBounded
        (Feishu.handleInboundPure Feishu.exStore Feishu.exCtx true "fresh" Feishu.exOutcome 5
          (fun _ => none)) :=
  ⟨claim_C3_state_machine_resume.1 Feishu.exStore Feishu.exCtx Feishu.exTask (by decide),
   claim_C3_state_machine_resume.2.1 Feishu.exStore Feishu.exCtx Feishu.exTask 5 none,
   claim_C3_state_machine_resume.2.2.1 Feishu.exStore Feishu.exCtx true "fresh"
     Feishu.exOutcome 5 (fun _ => none) "t2" (by decide)
     (fun last h => by
       have h2 : Feishu.resumeDecision Feishu.exStore Feishu.exCtx = some Feishu.exTask := by
         decide
       rw [h2, Option.some_inj] at h
       rw [← h]
       decide),
   claim_C3_state_machine_resume.2.2.2.1 Feishu.exStore "default" 1000 5 (fun _ => none)
     "t1" Feishu.exTask (by decide) (by decide) (by decide),
   claim_C3_state_machine_resume.2.2.2.2.1 Feishu.exStore (some "default") (some "m1") none
     "t1" Feishu.exTask (by decide) (by decide) (by decide),
   (claim_C3_state_machine_resume.2.2.2.2.2 Feishu.exStore
     (by unfold Feishu.attemptsBounded; decide)).1 Feishu.exCtx true
     "fresh" Feishu.exOutcome 5 (fun _ => none)⟩

/-- C7: when the outbound adapter sends a message whose trimmed, non-empty
`replyToId` equals the anchor `messageId` of a stored in-flight task that
is `waiting` and belongs to the sending account, the DONE reaction is
painted on the anchor with the task's current reaction passed as `prev`,
and the record is removed from the store; a task in any other state, or
of a different account, is left unchanged with no reaction call, as is a
send with no matching anchor; a throwing reaction call is swallowed,
leaving the store unchanged. -/
theorem claim_C7_outbound_auto_finalize :
    (∀ (s : Feishu.Store) (accountId replyToId : Option String) (task : Feishu.Task)
      (r : Feishu.Reaction),
      Feishu.trimStr (replyToId.getD "") ≠ "" →
      (s.tasks.find? fun t => t.messageId = Feishu.trimStr (replyToId.getD "")) = some task →
      task.state = .waiting →
      task.accountId = accountId.getD "default" →
      Feishu.maybeFinalizeWaitingInFlightTask s accountId replyToId (some r)
        = (Feishu.removeTask s task.id,
           some { messageId := task.messageId, nextEmojiType := Feishu.emojiDONE,
                  prev := task.reaction }))
    ∧ (∀ (s : Feishu.Store) (accountId replyToId : Option String) (task : Feishu.Task),
      Feishu.trimStr (replyToId.getD "") ≠ "" →
      (s.tasks.find? fun t => t.messageId = Feishu.trimStr (replyToId.getD "")) = some task →
      task.state = .waiting →
      task.accountId = accountId.getD "default" →
      Feishu.maybeFinalizeWaitingInFlightTask s accountId replyToId none
        = (s, some { messageId := task.messageId, nextEmojiType := Feishu.emojiDONE,
                     prev := task.reaction }))
    ∧ (∀ (s : Feishu.Store) (accountId replyToId : Option String) (task : Feishu.Task)
        (r : Option Feishu.Reaction),
      Feishu.trimStr (replyToId.getD "") ≠ "" →
      (s.tasks.find? fun t => t.messageId = Feishu.trimStr (replyToId.getD "")) = some task →
      (task.state ≠ .waiting ∨ task.accountId ≠ accountId.getD "default") →
      Feishu.maybeFinalizeWaitingInFlightTask s accountId replyToId r = (s, none))
    ∧ (∀ (s : Feishu.Store) (accountId replyToId : Option String)
        (r : Option Feishu.Reaction),
      (Feishu.trimStr (replyToId.getD "") = ""
        ∨ (s.tasks.find? fun t => t.messageId = Feishu.trimStr (replyToId.getD "")) = none) →
      Feishu.maybeFinalizeWaitingInFlightTask s accountId replyToId r = (s, none)) := by
  refine ⟨?_, ?_, ?_, ?_⟩
  · intro s accountId replyToId task r hne hf hw ha
    unfold Feishu.maybeFinalizeWaitingInFlightTask
    simp only
    rw [if_neg hne, hf]
    simp only
    have hguard : ¬ (task.state ≠ Feishu.TaskState.waiting
        ∨ task.accountId ≠ accountId.getD "default") := by
      push_neg
      exact ⟨hw, ha⟩
    rw [if_neg hguard]
  · intro s accountId replyToId task hne hf hw ha
    unfold Feishu.maybeFinalizeWaitingInFlightTask
    simp only
    rw [if_neg hne, hf]
    simp only
    have hguard : ¬ (task.state ≠ Feishu.TaskState.waiting
        ∨ task.accountId ≠ accountId.getD "default") := by
      push_neg
      exact ⟨hw, ha⟩
    rw [if_neg hguard]
  · intro s accountId replyToId task r hne hf hguard
    unfold Feishu.maybeFinalizeWaitingInFlightTask
    simp only
    rw [if_neg hne, hf]
    simp only
    rw [if_pos hguard]
  · intro s accountId replyToId r h
    unfold Feishu.maybeFinalizeWaitingInFlightTask
    simp only
    rcases h with h | h
    · rw [if_pos h]
    · by_cases hne : Feishu.trimStr (replyToId.getD "") = ""
      · rw [if_pos hne]
      · rw [if_neg hne, h]

/-- Concrete run of C7 on the example store: the waiting task `t2`
anchored at `m2` is finalized (DONE painted over its typing reaction,
record removed), a failing reaction call leaves the store unchanged, the
interrupted task anchored at `m1` is not finalized, and a send without a
`replyToId` is a no-op. -/
theorem claim_C7_outbound_auto_finalize_witness :
    Feishu.maybeFinalizeWaitingInFlightTask Feishu.exStore (some "default") (some "m2")
        (some { emojiType := "DONE", reactionId := "rx2" })
      = (Feishu.removeTask Feishu.exStore "t2",
         some { messageId := "m2", nextEmojiType := Feishu.emojiDONE,
                prev := some { emojiType := "Typing", reactionId := "rx1" } })
    ∧ Feishu.maybeFinalizeWaitingInFlightTask Feishu.exStore (some "default") (some "m2") none
      = (Feishu.exStore,
         some { messageId := "m2", nextEmojiType := Feishu.emojiDONE,
                prev := some { emojiType := "Typing", reactionId := "rx1" } })
    ∧ Feishu.maybeFinalizeWaitingInFlightTask Feishu.exStore (some "default") (some "m1")
        (some { emojiType := "DONE", reactionId := "rx2" }) = (Feishu.exStore, none)
    ∧ Feishu.maybeFinalizeWaitingInFlightTask Feishu.exStore (some "default") none
        (some { emojiType := "DONE", reactionId := "rx2" }) = (Feishu.exStore, none) :=
  ⟨claim_C7_outbound_auto_finalize.1 Feishu.exStore (some "default") (some "m2")
     Feishu.exWaiting { emojiType := "DONE", reactionId := "rx2" }
     (by decide) (by decide) (by decide) (by decide),
   claim_C7_outbound_auto_finalize.2.1 Feishu.exStore (some "default") (some "m2")
     Feishu.exWaiting (by decide) (by decide) (by decide) (by decide),
   claim_C7_outbound_auto_finalize.2.2.1 Feishu.exStore (some "default") (some "m1")
     Feishu.exTask (some { emojiType := "DONE", reactionId := "rx2" })
     (by decide) (by decide) (Or.inl (by decide)),
   claim_C7_outbound_auto_finalize.2.2.2 Feishu.exStore (some "default") none
     (some { emojiType := "DONE", reactionId := "rx2" }) (Or.inl (by decide))⟩

namespace Guard

lemma isPrefixOf_self_chars : ∀ l : List Char, l.isPrefixOf l = true := by
  intro l
  induction l with
  | nil => simp [List.isPrefixOf]
  | cons c t ih => simp [List.isPrefixOf, ih]

lemma isPrefixOf_append_extend (l m b : List Char)
    (h : l.isPrefixOf m = true) : l.isPrefixOf (m ++ b) = true := by
  rw [List.isPrefixOf_iff_prefix] at h ⊢
  exact h.trans (m.prefix_append b)

lemma containsSubstr_go_of_isPrefixOf {sub : String} :
    ∀ {l : List Char}, sub.data.isPrefixOf l = true → containsSubstr.go sub l = true := by
  intro l h
  cases l with
  | nil =>
    cases hs : sub.data with
    | nil => simp [containsSubstr.go, hs]
    | cons c t => rw [hs] at h; simp [List.isPrefixOf] at h
  | cons c t => simp [containsSubstr.go, h]

lemma containsSubstr_go_append (sub : String) (a : List Char) {b : List Char}
    (hb : containsSubstr.go sub b = true) : containsSubstr.go sub (a ++ b) = true := by
  induction a with
  | nil => exact hb
  | cons c t ih => simp [containsSubstr.go, ih]

lemma containsSubstr_go_extend (sub : String) (b : List Char) :
    ∀ {a : List Char}, containsSubstr.go sub a = true →
      containsSubstr.go sub (a ++ b) = true := by
  intro a
  induction a with
  | nil =>
    intro h
    simp only [containsSubstr.go] at h
    apply containsSubstr_go_of_isPrefixOf
    have hs : sub.data = [] := by
      cases hs2 : sub.data with
      | nil => rfl
      | cons c t => rw [hs2] at h; simp at h
    rw [hs]
    simp [List.isPrefixOf]
  | cons c t ih =>
    intro h
    simp only [containsSubstr.go, Bool.or_eq_true] at h
    show containsSubstr.go sub (c :: (t ++ b)) = true
    simp only [containsSubstr.go, Bool.or_eq_true]
    rcases h with h1 | h2
    · exact Or.inl (isPrefixOf_append_extend sub.data (c :: t) b h1)
    · exact Or.inr (ih h2)

lemma containsSubstr_self (s : String) : containsSubstr s s = true :=
  containsSubstr_go_of_isPrefixOf (isPrefixOf_self_chars s.data)

lemma containsSubstr_append_left (a b sub : String)
    (h : containsSubstr a sub = true) : containsSubstr (a ++ b) sub = true := by
  unfold containsSubstr at h ⊢
  rw [String.data_append]
  exact containsSubstr_go_extend sub b.data h

lemma containsSubstr_append_right (a b sub : String)
    (h : containsSubstr b sub = true) : containsSubstr (a ++ b) sub = true := by
  unfold containsSubstr at h ⊢
  rw [String.data_append]
  exact containsSubstr_go_append sub a.data h

end Guard

namespace Gate

/-- The stale notice contains the marker `过期消息`. -/
lemma staleText_contains_marker (iso : Int → String) (v l : Int) :
    Guard.containsSubstr (staleText iso v l) STALE_MARKER = true := by
  unfold staleText
  apply Guard.containsSubstr_append_left
  apply Guard.containsSubstr_append_left
  apply Guard.containsSubstr_append_left
  apply Guard.containsSubstr_append_left
  apply Guard.containsSubstr_append_left
  apply Guard.containsSubstr_append_left
  apply Guard.containsSubstr_append_left
  apply Guard.containsSubstr_append_left
  apply Guard.containsSubstr_append_left
  apply Guard.containsSubstr_append_left
  apply Guard.containsSubstr_append_left
  apply Guard.containsSubstr_append_left
  exact Guard.containsSubstr_self STALE_MARKER

/-- The stale notice contains `reason=out_of_order_delivery`. -/
lemma staleText_contains_reason (iso : Int → String) (v l : Int) :
    Guard.containsSubstr (staleText iso v l) STALE_REASON = true := by
  unfold staleText
  apply Guard.containsSubstr_append_right
  exact Guard.containsSubstr_self STALE_REASON

/-- The just-pushed id survives `slice(-limit)` whenever the limit is at
least 1. -/
lemma mem_sliceLast_append_self (l : List String) (x : String) {n : Nat} (hn : 1 ≤ n) :
    x ∈ sliceLast (l ++ [x]) n := by
  unfold sliceLast
  by_cases h0 : n = 0
  · omega
  · rw [if_neg h0]
    have hk : (l ++ [x]).length - n ≤ l.length := by
      simp only [List.length_append, List.length_singleton]
      omega
    rw [List.drop_append_of_le_length hk]
    exact List.mem_append_right _ (List.mem_singleton_self x)

lemma any_sliceLast_append_self (l : List String) (x : String) {n : Nat} (hn : 1 ≤ n) :
    ((sliceLast (l ++ [x]) n).any fun y => y = x) = true :=
  List.any_eq_true.2 ⟨x, mem_sliceLast_append_self l x hn, by simp⟩

/-- Once the id sits in the persistent ring, a delivery with that id can
only fall out as a duplicate (memory or persistent). -/
lemma second_delivery_dropped {cfg : StaleDropCfg} {mem : DedupMem} {st : InboundState}
    {ev : InboundEvent} {now : Int} {iso : Int → String}
    (hen : cfg.enabled = true)
    (hring : (st.recentMessageIds.any fun x => x = ev.messageId) = true) :
    (admitInbound cfg mem st ev now iso).admission = .dupMemory
    ∨ (admitInbound cfg mem st ev now iso).admission = .dupPersistent := by
  unfold admitInbound
  cases htr : tryRecordMessage mem ev.messageId now with
  | mk m1 b =>
    cases b
    · exact Or.inl rfl
    · right
      simp only
      rw [if_neg (not_not_intro hen), if_pos hring]

/-- After any admission other than an in-memory duplicate (with the gate
enabled and a positive ring limit), the persistent ring contains the
delivered id. -/
lemma ring_after_gate {cfg : StaleDropCfg} {mem : DedupMem} {st : InboundState}
    {ev : InboundEvent} {now : Int} {iso : Int → String}
    (hen : cfg.enabled = true) (hlim : 1 ≤ cfg.recentIdsLimit) :
    (admitInbound cfg mem st ev now iso).admission = .dupMemory
    ∨ (((admitInbound cfg mem st ev now iso).state.recentMessageIds.any
        fun x => x = ev.messageId) = true) := by
  unfold admitInbound
  cases htr : tryRecordMessage mem ev.messageId now with
  | mk m1 b =>
    cases b
    · exact Or.inl rfl
    · right
      simp only
      rw [if_neg (not_not_intro hen)]
      by_cases hdup : (st.recentMessageIds.any fun x => x = ev.messageId) = true
      · rw [if_pos hdup]
        exact hdup
      · rw [if_neg hdup]
        cases hct : ev.createTimeMs with
        | none =>
          cases hl : st.lastProcessedSentAtMs with
          | none =>
            simp only
            exact any_sliceLast_append_self _ _ hlim
          | some last =>
            simp only
            exact any_sliceLast_append_self _ _ hlim
        | some sentAt =>
          cases hl : st.lastProcessedSentAtMs with
          | none =>
            simp only
            exact any_sliceLast_append_self _ _ hlim
          | some last =>
            simp only
            by_cases hstale : sentAt < last - cfg.skewWindowMs
            · rw [if_pos hstale]
              exact any_sliceLast_append_self _ _ hlim
            · rw [if_neg hstale]
              exact any_sliceLast_append_self _ _ hlim

end Gate

namespace Gate

lemma mem_of_any_self {l : List String} {x : String}
    (h : (l.any fun y => y = x) = true) : x ∈ l := by
  rcases List.any_eq_true.1 h with ⟨y, hy, he⟩
  rw [of_decide_eq_true he] at hy
  exact hy

/-- Reduction of the gate on a fresh, non-duplicate, stale delivery. -/
lemma admitInbound_stale_eq {cfg : StaleDropCfg} {mem : DedupMem} {st : InboundState}
    {ev : InboundEvent} {now : Int} {iso : Int → String} {sentAt last : Int}
    (hen : cfg.enabled = true)
    (hfresh : (tryRecordMessage mem ev.messageId now).2 = true)
    (hdup : (st.recentMessageIds.any fun x => x = ev.messageId) = false)
    (hct : ev.createTimeMs = some sentAt)
    (hl : st.lastProcessedSentAtMs = some last)
    (hstale : sentAt < last - cfg.skewWindowMs) :
    admitInbound cfg mem st ev now iso
      = ⟨(tryRecordMessage mem ev.messageId now).1,
         { st with
           recentMessageIds := sliceLast (st.recentMessageIds ++ [ev.messageId])
             cfg.recentIdsLimit },
         .stale,
         if cfg.reply then
           [⟨if ev.isGroup then ev.chatId else ev.senderOpenId, ev.messageId,
             staleText iso sentAt last⟩]
         else []⟩ := by
  unfold admitInbound
  cases htr : tryRecordMessage mem ev.messageId now with
  | mk m1 b =>
    rw [htr] at hfresh
    simp only at hfresh
    subst hfresh
    simp only
    rw [if_neg (not_not_intro hen)]
    have hdup2 : ¬ ((st.recentMessageIds.any fun x => x = ev.messageId) = true) := by
      rw [hdup]
      exact Bool.false_ne_true
    rw [if_neg hdup2, hct, hl]
    simp only
    rw [if_pos hstale]

end Gate

/-- C4: an inbound event whose finite `sentAtMs` lies strictly below the
persisted `lastProcessedSentAtMs` minus `skewWindowMs` (with stale-drop
enabled, after passing both dedup layers) is never dispatched to the
agent: the gate stops at the stale admission; if `staleDrop.reply` is
on, exactly one outbound send is made, replying to the event's
`messageId` with a body containing `过期消息` and
`reason=out_of_order_delivery`, without involving the agent; the event's
id is still recorded into `recentMessageIds`, and the watermark is left
unchanged. -/
theorem claim_C4_stale_drop :
    ∀ (cfg : Gate.StaleDropCfg) (mem : Gate.DedupMem) (st : Gate.InboundState)
      (ev : Gate.InboundEvent) (now : Int) (iso : Int → String) (sentAt last : Int),
      cfg.enabled = true →
      1 ≤ cfg.recentIdsLimit →
      (Gate.tryRecordMessage mem ev.messageId now).2 = true →
      (st.recentMessageIds.any fun x => x = ev.messageId) = false →
      ev.createTimeMs = some sentAt →
      st.lastProcessedSentAtMs = some last →
      sentAt < last - cfg.skewWindowMs →
      (Gate.admitInbound cfg mem st ev now iso).admission = .stale
      ∧ (Gate.admitInbound cfg mem st ev now iso).sends
          = (if cfg.reply then
              [{ sendTo := if ev.isGroup then ev.chatId else ev.senderOpenId,
                 replyToMessageId := ev.messageId,
                 text := Gate.staleText iso sentAt last }]
            else [])
      ∧ (cfg.reply = true →
          ∃ c, (Gate.admitInbound cfg mem st ev now iso).sends = [c]
            ∧ c.replyToMessageId = ev.messageId
            ∧ Guard.containsSubstr c.text Gate.STALE_MARKER = true
            ∧ Guard.containsSubstr c.text Gate.STALE_REASON = true)
      ∧ ev.messageId ∈ (Gate.admitInbound cfg mem st ev now iso).state.recentMessageIds
      ∧ (Gate.admitInbound cfg mem st ev now iso).state.lastProcessedSentAtMs
          = st.lastProcessedSentAtMs := by
  intro cfg mem st ev now iso sentAt last hen hlim hfresh hdup hct hl hstale
  have hred := @Gate.admitInbound_stale_eq cfg mem st ev now iso sentAt last
    hen hfresh hdup hct hl hstale
  refine ⟨by rw [hred], by rw [hred], ?_, ?_, by rw [hred]⟩
  · intro hr
    refine ⟨⟨if ev.isGroup then ev.chatId else ev.senderOpenId, ev.messageId,
        Gate.staleText iso sentAt last⟩, ?_, rfl,
      Gate.staleText_contains_marker iso sentAt last,
      Gate.staleText_contains_reason iso sentAt last⟩
    rw [hred]
    simp [hr]
  · rw [hred]
    exact Gate.mem_sliceLast_append_self _ _ hlim

/-- Concrete run of C4: with the default stale-drop config, a delivery
sent at 10 against a watermark of 1000000 is stale-dropped; exactly one
direct reply is sent to the event's message, its body carries the stale
marker and the machine-readable reason, the id lands in the ring, and
the watermark is unchanged. -/
theorem claim_C4_stale_drop_witness :
    (Gate.admitInbound (Gate.resolveStaleDropConfig ⟨none, none, none, none⟩) ⟨[], 0⟩
        ⟨some 1000000, []⟩ ⟨"X", "c1", "u1", false, some 10⟩ 0
        (fun _ => "Z")).admission = .stale
    ∧ (Gate.admitInbound (Gate.resolveStaleDropConfig ⟨none, none, none, none⟩) ⟨[], 0⟩
        ⟨some 1000000, []⟩ ⟨"X", "c1", "u1", false, some 10⟩ 0
        (fun _ => "Z")).sends
        = (if (Gate.resolveStaleDropConfig ⟨none, none, none, none⟩).reply then
            [{ sendTo := if (false : Bool) then "c1" else "u1",
               replyToMessageId := "X",
               text := Gate.staleText (fun _ => "Z") 10 1000000 }]
          else [])
    ∧ ((Gate.resolveStaleDropConfig ⟨none, none, none, none⟩).reply = true →
        ∃ c, (Gate.admitInbound (Gate.resolveStaleDropConfig ⟨none, none, none, none⟩) ⟨[], 0⟩
            ⟨some 1000000, []⟩ ⟨"X", "c1", "u1", false, some 10⟩ 0
            (fun _ => "Z")).sends = [c]
          ∧ c.replyToMessageId = "X"
          ∧ Guard.containsSubstr c.text Gate.STALE_MARKER = true
          ∧ Guard.containsSubstr c.text Gate.STALE_REASON = true)
    ∧ "X" ∈ (Gate.admitInbound (Gate.resolveStaleDropConfig ⟨none, none, none, none⟩) ⟨[], 0⟩
        ⟨some 1000000, []⟩ ⟨"X", "c1", "u1", false, some 10⟩ 0
        (fun _ => "Z")).state.recentMessageIds
    ∧ (Gate.admitInbound (Gate.resolveStaleDropConfig ⟨none, none, none, none⟩) ⟨[], 0⟩
        ⟨some 1000000, []⟩ ⟨"X", "c1", "u1", false, some 10⟩ 0
        (fun _ => "Z")).state.lastProcessedSentAtMs = some 1000000 :=
  claim_C4_stale_drop (Gate.resolveStaleDropConfig ⟨none, none, none, none⟩) ⟨[], 0⟩
    ⟨some 1000000, []⟩ ⟨"X", "c1", "u1", false, some 10⟩ 0 (fun _ => "Z") 10 1000000
    (by decide) (by decide) (by decide) (by decide) (by decide) (by decide) (by decide)

/-- C10: an inbound event whose `message.create_time` is missing, empty,
or does not parse to a finite number is never dropped as stale (no stale
admission, no stale reply is sent) and never advances
`lastProcessedSentAtMs`; yet when it is dispatched its `messageId` is
still pushed into the `recentMessageIds` ring, so a redelivery of the
same id is dropped as a duplicate (in-memory or persistent). -/
theorem claim_C10_unparsable_create_time :
    ∀ (cfg : Gate.StaleDropCfg) (mem : Gate.DedupMem) (st : Gate.InboundState)
      (ev : Gate.InboundEvent) (now : Int) (iso : Int → String) (ct : Option String),
      cfg.enabled = true →
      1 ≤ cfg.recentIdsLimit →
      ev.createTimeMs = Gate.parseCreateTime ct →
      Gate.parseCreateTime ct = none →
      (Gate.admitInbound cfg mem st ev now iso).admission ≠ .stale
      ∧ (Gate.admitInbound cfg mem st ev now iso).sends = []
      ∧ (Gate.admitInbound cfg mem st ev now iso).state.lastProcessedSentAtMs
          = st.lastProcessedSentAtMs
      ∧ ((Gate.admitInbound cfg mem st ev now iso).admission = .dispatch →
          ev.messageId ∈ (Gate.admitInbound cfg mem st ev now iso).state.recentMessageIds)
      ∧ ((Gate.admitInbound cfg mem st ev now iso).admission = .dispatch →
          ∀ now2 : Int,
            (Gate.admitInbound cfg (Gate.admitInbound cfg mem st ev now iso).mem
                (Gate.admitInbound cfg mem st ev now iso).state ev now2 iso).admission
              = .dupMemory
            ∨ (Gate.admitInbound cfg (Gate.admitInbound cfg mem st ev now iso).mem
                (Gate.admitInbound cfg mem st ev now iso).state ev now2 iso).admission
              = .dupPersistent) := by
  intro cfg mem st ev now iso ct hen hlim hev hnone
  have hct : ev.createTimeMs = none := by rw [hev, hnone]
  have h4 : (Gate.admitInbound cfg mem st ev now iso).admission = .dispatch →
      ((Gate.admitInbound cfg mem st ev now iso).state.recentMessageIds.any
        fun x => x = ev.messageId) = true := by
    intro hd
    rcases @Gate.ring_after_gate cfg mem st ev now iso hen hlim with h | h
    · rw [hd] at h
      cases h
    · exact h
  refine ⟨?_, ?_, ?_, fun hd => Gate.mem_of_any_self (h4 hd), ?_⟩
  · unfold Gate.admitInbound
    cases htr : Gate.tryRecordMessage mem ev.messageId now with
    | mk m1 b =>
      cases b
      · simp
      · simp only
        rw [if_neg (not_not_intro hen)]
        by_cases hdup : (st.recentMessageIds.any fun x => x = ev.messageId) = true
        · rw [if_pos hdup]
          simp
        · rw [if_neg hdup, hct]
          simp
  · unfold Gate.admitInbound
    cases htr : Gate.tryRecordMessage mem ev.messageId now with
    | mk m1 b =>
      cases b
      · rfl
      · simp only
        rw [if_neg (not_not_intro hen)]
        by_cases hdup : (st.recentMessageIds.any fun x => x = ev.messageId) = true
        · rw [if_pos hdup]
        · rw [if_neg hdup, hct]
  · unfold Gate.admitInbound
    cases htr : Gate.tryRecordMessage mem ev.messageId now with
    | mk m1 b =>
      cases b
      · rfl
      · simp only
        rw [if_neg (not_not_intro hen)]
        by_cases hdup : (st.recentMessageIds.any fun x => x = ev.messageId) = true
        · rw [if_pos hdup]
        · rw [if_neg hdup, hct]
          simp only [Gate.advanceState, hct]
  · intro hd now2
    exact @Gate.second_delivery_dropped cfg (Gate.admitInbound cfg mem st ev now iso).mem
      (Gate.admitInbound cfg mem st ev now iso).state ev now2 iso hen (h4 hd)

/-- Concrete run of C10: a delivery with an empty `create_time` against a
watermark of 777 dispatches without touching the watermark, records its
id, and an immediate redelivery is dropped as a duplicate. -/
theorem claim_C10_unparsable_create_time_witness :
    (Gate.admitInbound (Gate.resolveStaleDropConfig ⟨none, none, none, none⟩) ⟨[], 0⟩
        ⟨some 777, []⟩ ⟨"Y", "c1", "u1", false, Gate.parseCreateTime (some "")⟩ 0
        (fun _ => "Z")).admission ≠ .stale
    ∧ (Gate.admitInbound (Gate.resolveStaleDropConfig ⟨none, none, none, none⟩) ⟨[], 0⟩
        ⟨some 777, []⟩ ⟨"Y", "c1", "u1", false, Gate.parseCreateTime (some "")⟩ 0
        (fun _ => "Z")).sends = []
    ∧ (Gate.admitInbound (Gate.resolveStaleDropConfig ⟨none, none, none, none⟩) ⟨[], 0⟩
        ⟨some 777, []⟩ ⟨"Y", "c1", "u1", false, Gate.parseCreateTime (some "")⟩ 0
        (fun _ => "Z")).state.lastProcessedSentAtMs = some 777
    ∧ ((Gate.admitInbound (Gate.resolveStaleDropConfig ⟨none, none, none, none⟩) ⟨[], 0⟩
        ⟨some 777, []⟩ ⟨"Y", "c1", "u1", false, Gate.parseCreateTime (some "")⟩ 0
        (fun _ => "Z")).admission = .dispatch →
        "Y" ∈ (Gate.admitInbound (Gate.resolveStaleDropConfig ⟨none, none, none, none⟩)
          ⟨[], 0⟩ ⟨some 777, []⟩ ⟨"Y", "c1", "u1", false, Gate.parseCreateTime (some "")⟩ 0
          (fun _ => "Z")).state.recentMessageIds)
    ∧ ((Gate.admitInbound (Gate.resolveStaleDropConfig ⟨none, none, none, none⟩) ⟨[], 0⟩
        ⟨some 777, []⟩ ⟨"Y", "c1", "u1", false, Gate.parseCreateTime (some "")⟩ 0
        (fun _ => "Z")).admission = .dispatch →
        ∀ now2 : Int,
          (Gate.admitInbound (Gate.resolveStaleDropConfig ⟨none, none, none, none⟩)
              (Gate.admitInbound (Gate.resolveStaleDropConfig ⟨none, none, none, none⟩)
                ⟨[], 0⟩ ⟨some 777, []⟩
                ⟨"Y", "c1", "u1", false, Gate.parseCreateTime (some "")⟩ 0
                (fun _ => "Z")).mem
              (Gate.admitInbound (Gate.resolveStaleDropConfig ⟨none, none, none, none⟩)
                ⟨[], 0⟩ ⟨some 777, []⟩
                ⟨"Y", "c1", "u1", false, Gate.parseCreateTime (some "")⟩ 0
                (fun _ => "Z")).state
              ⟨"Y", "c1", "u1", false, Gate.parseCreateTime (some "")⟩ now2
              (fun _ => "Z")).admission = .dupMemory
          ∨ (Gate.admitInbound (Gate.resolveStaleDropConfig ⟨none, none, none, none⟩)
              (Gate.admitInbound (Gate.resolveStaleDropConfig ⟨none, none, none, none⟩)
                ⟨[], 0⟩ ⟨some 777, []⟩
                ⟨"Y", "c1", "u1", false, Gate.parseCreateTime (some "")⟩ 0
                (fun _ => "Z")).mem
              (Gate.admitInbound (Gate.resolveStaleDropConfig ⟨none, none, none, none⟩)
                ⟨[], 0⟩ ⟨some 777, []⟩
                ⟨"Y", "c1", "u1", false, Gate.parseCreateTime (some "")⟩ 0
                (fun _ => "Z")).state
              ⟨"Y", "c1", "u1", false, Gate.parseCreateTime (some "")⟩ now2
              (fun _ => "Z")).admission = .dupPersistent) :=
  claim_C10_unparsable_create_time (Gate.resolveStaleDropConfig ⟨none, none, none, none⟩)
    ⟨[], 0⟩ ⟨some 777, []⟩ ⟨"Y", "c1", "u1", false, Gate.parseCreateTime (some "")⟩ 0
    (fun _ => "Z") (some "") (by decide) (by decide) rfl (by decide)

/-- C6 (amended): the dedup protection is layered rather than absolute.
(i) The in-memory map: a delivery is reported as a duplicate exactly
when, after the throttled TTL sweep, its id is still present; whenever
the call returns, the id is present in the resulting map.
(ii) The persistent ring: with the gate enabled, a delivery whose id
sits in `recentMessageIds` is dropped as a duplicate (memory or
persistent).  (iii) Hence an immediate redelivery (no intervening
deliveries in the chat) of anything that was not itself an in-memory
duplicate is always dropped, provided the gate is enabled and the ring
limit is at least 1. -/
theorem claim_C6_dedup_layers :
    (∀ (mem : Gate.DedupMem) (mid : String) (now : Int),
      ((Gate.tryRecordMessage mem mid now).2 = false
        ↔ ((Gate.sweepDedup mem now).entries.any fun e => e.1 = mid) = true)
      ∧ (((Gate.tryRecordMessage mem mid now).1.entries.any fun e => e.1 = mid) = true))
    ∧ (∀ (cfg : Gate.StaleDropCfg) (mem : Gate.DedupMem) (st : Gate.InboundState)
        (ev : Gate.InboundEvent) (now : Int) (iso : Int → String),
        cfg.enabled = true →
        (st.recentMessageIds.any fun x => x = ev.messageId) = true →
        (Gate.admitInbound cfg mem st ev now iso).admission = .dupMemory
        ∨ (Gate.admitInbound cfg mem st ev now iso).admission = .dupPersistent)
    ∧ (∀ (cfg : Gate.StaleDropCfg) (mem : Gate.DedupMem) (st : Gate.InboundState)
        (ev : Gate.InboundEvent) (now now2 : Int) (iso : Int → String),
        cfg.enabled = true →
        1 ≤ cfg.recentIdsLimit →
        (Gate.admitInbound cfg mem st ev now iso).admission ≠ .dupMemory →
        (Gate.admitInbound cfg (Gate.admitInbound cfg mem st ev now iso).mem
            (Gate.admitInbound cfg mem st ev now iso).state ev now2 iso).admission
          = .dupMemory
        ∨ (Gate.admitInbound cfg (Gate.admitInbound cfg mem st ev now iso).mem
            (Gate.admitInbound cfg mem st ev now iso).state ev now2 iso).admission
          = .dupPersistent) := by
  refine ⟨?_, ?_, ?_⟩
  · intro mem mid now
    simp only [Gate.tryRecordMessage]
    by_cases hdup : ((Gate.sweepDedup mem now).entries.any fun e => e.1 = mid) = true
    · rw [if_pos hdup]
      exact ⟨by simp [hdup], hdup⟩
    · rw [if_neg hdup]
      refine ⟨by simp [hdup], ?_⟩
      simp
  · intro cfg mem st ev now iso hen hring
    exact @Gate.second_delivery_dropped cfg mem st ev now iso hen hring
  · intro cfg mem st ev now now2 iso hen hlim h1
    rcases @Gate.ring_after_gate cfg mem st ev now iso hen hlim with h | h
    · exact absurd h h1
    · exact @Gate.second_delivery_dropped cfg (Gate.admitInbound cfg mem st ev now iso).mem
        (Gate.admitInbound cfg mem st ev now iso).state ev now2 iso hen h

set_option maxRecDepth 8192 in
/-- C6 counterexample: the unconditioned claim — every redelivery of an
already-seen id is dropped before dispatch — fails.  With the legal
config `recentIdsLimit = 1`, the run A(t=0), B(t=31min1s), A(t=31min2s)
dispatches all three deliveries: the TTL sweep at the second delivery
evicts A from the in-memory map, and B then evicts A from the
one-element persistent ring, so the redelivery of A dispatches again
even though only two distinct ids were delivered. -/
theorem claim_C6_dedup_layers_counterexample :
    (Gate.runInbound (Gate.resolveStaleDropConfig ⟨none, none, none, some 1⟩)
        (fun _ => "") ⟨[], 0⟩ ⟨none, []⟩
        [(⟨"A", "c", "u", false, none⟩, 0),
         (⟨"B", "c", "u", false, none⟩, 1860001),
         (⟨"A", "c", "u", false, none⟩, 1860002)]).2.2
      = [.dispatch, .dispatch, .dispatch] := by
  decide

/-- Concrete run of C6: a recorded id is reported as an in-memory
duplicate, the id is present after recording, a ring hit is dropped, and
an immediate redelivery of a dispatched message is dropped. -/
theorem claim_C6_dedup_layers_witness :
    ((Gate.tryRecordMessage ⟨[("A", 0)], 0⟩ "A" 10).2 = false
      ↔ ((Gate.sweepDedup ⟨[("A", 0)], 0⟩ 10).entries.any fun e => e.1 = "A") = true)
    ∧ (((Gate.tryRecordMessage ⟨[("A", 0)], 0⟩ "A" 10).1.entries.any
        fun e => e.1 = "A") = true)
    ∧ ((Gate.admitInbound (Gate.resolveStaleDropConfig ⟨none, none, none, none⟩) ⟨[], 0⟩
        ⟨none, ["A"]⟩ ⟨"A", "c", "u", false, none⟩ 0 (fun _ => "")).admission = .dupMemory
      ∨ (Gate.admitInbound (Gate.resolveStaleDropConfig ⟨none, none, none, none⟩) ⟨[], 0⟩
        ⟨none, ["A"]⟩ ⟨"A", "c", "u", false, none⟩ 0 (fun _ => "")).admission
          = .dupPersistent)
    ∧ ((Gate.admitInbound (Gate.resolveStaleDropConfig ⟨none, none, none, none⟩)
          (Gate.admitInbound (Gate.resolveStaleDropConfig ⟨none, none, none, none⟩)
            ⟨[], 0⟩ ⟨none, []⟩ ⟨"A", "c", "u", false, none⟩ 0 (fun _ => "")).mem
          (Gate.admitInbound (Gate.resolveStaleDropConfig ⟨none, none, none, none⟩)
            ⟨[], 0⟩ ⟨none, []⟩ ⟨"A", "c", "u", false, none⟩ 0 (fun _ => "")).state
          ⟨"A", "c", "u", false, none⟩ 7 (fun _ => "")).admission = .dupMemory
      ∨ (Gate.admitInbound (Gate.resolveStaleDropConfig ⟨none, none, none, none⟩)
          (Gate.admitInbound (Gate.resolveStaleDropConfig ⟨none, none, none, none⟩)
            ⟨[], 0⟩ ⟨none, []⟩ ⟨"A", "c", "u", false, none⟩ 0 (fun _ => "")).mem
          (Gate.admitInbound (Gate.resolveStaleDropConfig ⟨none, none, none, none⟩)
            ⟨[], 0⟩ ⟨none, []⟩ ⟨"A", "c", "u", false, none⟩ 0 (fun _ => "")).state
          ⟨"A", "c", "u", false, none⟩ 7 (fun _ => "")).admission = .dupPersistent) :=
  ⟨(claim_C6_dedup_layers.1 ⟨[("A", 0)], 0⟩ "A" 10).1,
   (claim_C6_dedup_layers.1 ⟨[("A", 0)], 0⟩ "A" 10).2,
   claim_C6_dedup_layers.2.1 (Gate.resolveStaleDropConfig ⟨none, none, none, none⟩) ⟨[], 0⟩
     ⟨none, ["A"]⟩ ⟨"A", "c", "u", false, none⟩ 0 (fun _ => "") (by decide) (by decide),
   claim_C6_dedup_layers.2.2 (Gate.resolveStaleDropConfig ⟨none, none, none, none⟩) ⟨[], 0⟩
     ⟨none, []⟩ ⟨"A", "c", "u", false, none⟩ 0 7 (fun _ => "") (by decide) (by decide)
     (by decide)⟩

/-- C5: `replaceStatusReaction` always adds the new reaction first and
returns `{emojiType := nextEmojiType, reactionId := newReactionId}`;
the previous reaction is removed only when it exists (non-empty id) and
its id differs from the newly returned one, a throwing removal being
logged and swallowed without affecting the result; in particular, when
the provider idempotently returns the previous id, or there is no
previous reaction, no remove call is attempted. -/
theorem claim_C5_replace_status_reaction :
    ∀ (messageId nextEmojiType : String) (prev : Option Rxn.StatusReactionState)
      (newReactionId : String) (removeOk : Bool),
      (Rxn.replaceStatusReaction messageId nextEmojiType prev newReactionId removeOk).1
        = ⟨nextEmojiType, newReactionId⟩
      ∧ (Rxn.replaceStatusReaction messageId nextEmojiType prev newReactionId
          removeOk).2.head? = some (.add messageId nextEmojiType)
      ∧ (∀ p, prev = some p → p.reactionId ≠ "" → p.reactionId ≠ newReactionId →
          (Rxn.replaceStatusReaction messageId nextEmojiType prev newReactionId removeOk).2
            = (if removeOk then
                [.add messageId nextEmojiType, .remove messageId p.reactionId]
              else
                [.add messageId nextEmojiType, .remove messageId p.reactionId,
                 .removeFailedLog messageId p.reactionId]))
      ∧ (∀ p, prev = some p → p.reactionId = newReactionId →
          (Rxn.replaceStatusReaction messageId nextEmojiType prev newReactionId removeOk).2
            = [.add messageId nextEmojiType])
      ∧ (prev = none →
          (Rxn.replaceStatusReaction messageId nextEmojiType prev newReactionId removeOk).2
            = [.add messageId nextEmojiType]) := by
  intro messageId nextEmojiType prev newReactionId removeOk
  refine ⟨rfl, ?_, ?_, ?_, ?_⟩
  · cases prev with
    | none => rfl
    | some p =>
      simp only [Rxn.replaceStatusReaction]
      by_cases hc : p.reactionId ≠ "" ∧ p.reactionId ≠ newReactionId
      · rw [if_pos hc]
        cases removeOk <;> rfl
      · rw [if_neg hc]
        rfl
  · intro p hp h1 h2
    subst hp
    simp only [Rxn.replaceStatusReaction]
    rw [if_pos ⟨h1, h2⟩]
  · intro p hp he
    subst hp
    simp only [Rxn.replaceStatusReaction]
    rw [if_neg (fun hc => hc.2 he)]
  · intro hp
    subst hp
    rfl

/-- Concrete runs of C5: replacing a distinct previous reaction removes
it after the add (and a throwing removal only adds a log); an idempotent
provider answer and a missing previous reaction both leave a bare add;
the returned state is always the new emoji with the new id. -/
theorem claim_C5_replace_status_reaction_witness :
    (Rxn.replaceStatusReaction "m" "DONE" (some ⟨"Typing", "r1"⟩) "r2" true).1
      = ⟨"DONE", "r2"⟩
    ∧ (Rxn.replaceStatusReaction "m" "DONE" (some ⟨"Typing", "r1"⟩) "r2" true).2
      = (if true then [.add "m" "DONE", .remove "m" "r1"]
         else [.add "m" "DONE", .remove "m" "r1", .removeFailedLog "m" "r1"])
    ∧ (Rxn.replaceStatusReaction "m" "DONE" (some ⟨"Typing", "r1"⟩) "r2" false).2
      = (if false then [.add "m" "DONE", .remove "m" "r1"]
         else [.add "m" "DONE", .remove "m" "r1", .removeFailedLog "m" "r1"])
    ∧ (Rxn.replaceStatusReaction "m" "DONE" (some ⟨"DONE", "r1"⟩) "r1" true).2
      = [.add "m" "DONE"]
    ∧ (Rxn.replaceStatusReaction "m" "DONE" none "r2" true).2 = [.add "m" "DONE"] :=
  ⟨(claim_C5_replace_status_reaction "m" "DONE" (some ⟨"Typing", "r1"⟩) "r2" true).1,
   (claim_C5_replace_status_reaction "m" "DONE" (some ⟨"Typing", "r1"⟩) "r2" true).2.2.1
     ⟨"Typing", "r1"⟩ rfl (by decide) (by decide),
   (claim_C5_replace_status_reaction "m" "DONE" (some ⟨"Typing", "r1"⟩) "r2" false).2.2.1
     ⟨"Typing", "r1"⟩ rfl (by decide) (by decide),
   (claim_C5_replace_status_reaction "m" "DONE" (some ⟨"DONE", "r1"⟩) "r1" true).2.2.2.1
     ⟨"DONE", "r1"⟩ rfl rfl,
   (claim_C5_replace_status_reaction "m" "DONE" none "r2" true).2.2.2.2 rfl⟩

namespace Announce

lemma isStale_congr {q1 q2 : QueueState} (h : q1.maxAgeMs = q2.maxAgeMs)
    (i : Item) (n : Int) : isStaleItem q1 i n = isStaleItem q2 i n := by
  unfold isStaleItem
  rw [h]

lemma maxAge_dropStale (q : QueueState) (now : Int) :
    (dropStaleItems q now).maxAgeMs = q.maxAgeMs := by
  unfold dropStaleItems
  split <;> rfl

end Announce

/-- C9: an announce item older than the queue's positive `maxAgeMs` and
not marked high-priority is never passed to `send`: it tests stale, the
at-send-time check skips it without calling `send`, and the pre-delivery
sweep keeps only items that are not stale; a high-priority item is never
stale and is delivered regardless of age — a followup queue with
`maxAgeMs = 10` holding one high-priority item enqueued 60000 ms in the
past performs exactly one send. -/
theorem claim_C9_announce_staleness :
    (∀ (q : Announce.QueueState) (item : Announce.Item) (now : Int) (ok : Bool),
      item.highPriority = false →
      0 < q.maxAgeMs →
      now - item.enqueuedAt > q.maxAgeMs →
      Announce.isStaleItem q item now = true
      ∧ Announce.sendIfFresh q item now ok = (.skippedStale, none))
    ∧ (∀ (q : Announce.QueueState) (now : Int) (item : Announce.Item),
        item ∈ (Announce.dropStaleItems q now).items →
        Announce.isStaleItem q item now = false)
    ∧ (∀ (q : Announce.QueueState) (item : Announce.Item) (now : Int),
        item.highPriority = true →
        Announce.isStaleItem q item now = false
        ∧ Announce.sendIfFresh q item now true = (.delivered, some item))
    ∧ (∀ (q : Announce.QueueState) (item : Announce.Item) (now : Int),
        q.items = [item] →
        q.maxAgeMs = 10 →
        item.highPriority = true →
        item.enqueuedAt = now - 60000 →
        (Announce.drainIterFollowup q now true).2.1 = [item]
        ∧ (Announce.drainIterFollowup q now true).1.items = []) := by
  refine ⟨?_, ?_, ?_, ?_⟩
  · intro q item now ok h1 h2 h3
    have hstale : Announce.isStaleItem q item now = true := by
      unfold Announce.isStaleItem
      rw [if_neg (by rw [h1]; exact Bool.false_ne_true),
        if_neg (not_le.2 h2)]
      exact decide_eq_true h3
    refine ⟨hstale, ?_⟩
    unfold Announce.sendIfFresh
    rw [if_pos hstale]
  · intro q now item hmem
    unfold Announce.dropStaleItems at hmem
    by_cases hle : q.maxAgeMs ≤ 0
    · rw [if_pos hle] at hmem
      unfold Announce.isStaleItem
      by_cases hp : item.highPriority = true
      · rw [if_pos hp]
      · rw [if_neg hp, if_pos hle]
    · rw [if_neg hle] at hmem
      simp only at hmem
      exact Bool.eq_false_iff.2 (of_decide_eq_true (List.mem_filter.1 hmem).2)
  · intro q item now hp
    have hstale : Announce.isStaleItem q item now = false := by
      unfold Announce.isStaleItem
      rw [if_pos hp]
    refine ⟨hstale, ?_⟩
    unfold Announce.sendIfFresh
    rw [if_neg (by rw [hstale]; exact Bool.false_ne_true), if_pos rfl]
  · intro q item now hq hmax hp hage
    have hstale : ∀ (q2 : Announce.QueueState), Announce.isStaleItem q2 item now = false := by
      intro q2
      unfold Announce.isStaleItem
      rw [if_pos hp]
    have hq1 : (Announce.dropStaleItems q now).items = [item] := by
      unfold Announce.dropStaleItems
      by_cases hle : q.maxAgeMs ≤ 0
      · rw [if_pos hle]
        exact hq
      · rw [if_neg hle]
        simp only
        rw [hq, List.filter_cons]
        rw [if_pos (decide_eq_true (by rw [hstale q]; exact Bool.false_ne_true))]
        rfl
    simp only [Announce.drainIterFollowup]
    rw [hq1]
    simp only
    rw [if_neg (by rw [hstale (Announce.dropStaleItems q now)]; exact Bool.false_ne_true)]
    exact ⟨rfl, rfl⟩

/-- Concrete runs of C9: with `maxAgeMs = 10`, an ordinary item 60000 ms
old is stale and skipped without a send; the sweep leaves nothing of a
stale-only queue; the same-aged high-priority item tests fresh and a
drain pass delivers exactly it. -/
theorem claim_C9_announce_staleness_witness :
    (Announce.isStaleItem
        ⟨[], false, 0, .followup, 0, 20, 0, [], 10⟩
        ⟨none, "old", none, 40000, "sk", none, false⟩ 100000 = true
      ∧ Announce.sendIfFresh ⟨[], false, 0, .followup, 0, 20, 0, [], 10⟩
        ⟨none, "old", none, 40000, "sk", none, false⟩ 100000 true
        = (.skippedStale, none))
    ∧ (Announce.isStaleItem
        ⟨[⟨none, "hp", none, 40000, "sk", none, true⟩], false, 0, .followup, 0, 20, 0, [], 10⟩
        ⟨none, "hp", none, 40000, "sk", none, true⟩ 100000 = false
      ∧ Announce.sendIfFresh
        ⟨[⟨none, "hp", none, 40000, "sk", none, true⟩], false, 0, .followup, 0, 20, 0, [], 10⟩
        ⟨none, "hp", none, 40000, "sk", none, true⟩ 100000 true
        = (.delivered, some ⟨none, "hp", none, 40000, "sk", none, true⟩))
    ∧ ((Announce.drainIterFollowup
        ⟨[⟨none, "hp", none, 40000, "sk", none, true⟩], false, 0, .followup, 0, 20, 0, [], 10⟩
        100000 true).2.1 = [⟨none, "hp", none, 40000, "sk", none, true⟩]
      ∧ (Announce.drainIterFollowup
        ⟨[⟨none, "hp", none, 40000, "sk", none, true⟩], false, 0, .followup, 0, 20, 0, [], 10⟩
        100000 true).1.items = []) :=
  ⟨claim_C9_announce_staleness.1 ⟨[], false, 0, .followup, 0, 20, 0, [], 10⟩
     ⟨none, "old", none, 40000, "sk", none, false⟩ 100000 true rfl (by decide) (by decide),
   claim_C9_announce_staleness.2.2.1
     ⟨[⟨none, "hp", none, 40000, "sk", none, true⟩], false, 0, .followup, 0, 20, 0, [], 10⟩
     ⟨none, "hp", none, 40000, "sk", none, true⟩ 100000 rfl,
   claim_C9_announce_staleness.2.2.2
     ⟨[⟨none, "hp", none, 40000, "sk", none, true⟩], false, 0, .followup, 0, 20, 0, [], 10⟩
     ⟨none, "hp", none, 40000, "sk", none, true⟩ 100000 rfl rfl rfl (by decide)⟩

namespace Announce

/-- Reduction of one drain iteration whose send rejects: the head item
stays queued, `lastEnqueuedAt` becomes `now`, the loop stops and
`draining` is cleared. -/
lemma drainIter_fail_eq {q : QueueState} {now : Int} {next : Item} {rest : List Item}
    (h : (dropStaleItems q now).items = next :: rest)
    (hns : isStaleItem (dropStaleItems q now) next now = false) :
    drainIterFollowup q now false
      = (⟨next :: rest, false, now, (dropStaleItems q now).mode,
          (dropStaleItems q now).debounceMs, (dropStaleItems q now).cap,
          (dropStaleItems q now).droppedCount, (dropStaleItems q now).summaryLines,
          (dropStaleItems q now).maxAgeMs⟩, [next], false) := by
  simp only [drainIterFollowup]
  rw [h]
  simp only
  rw [if_neg (by rw [hns]; exact Bool.false_ne_true),
    if_neg (by exact Bool.false_ne_true)]

/-- Reduction of one drain iteration whose send resolves: the head item
is delivered and shifted. -/
lemma drainIter_ok_eq {q : QueueState} {now : Int} {next : Item} {rest : List Item}
    (h : (dropStaleItems q now).items = next :: rest)
    (hns : isStaleItem (dropStaleItems q now) next now = false) :
    drainIterFollowup q now true
      = (⟨rest, (dropStaleItems q now).draining, (dropStaleItems q now).lastEnqueuedAt,
          (dropStaleItems q now).mode, (dropStaleItems q now).debounceMs,
          (dropStaleItems q now).cap, (dropStaleItems q now).droppedCount,
          (dropStaleItems q now).summaryLines, (dropStaleItems q now).maxAgeMs⟩,
         [next], true) := by
  simp only [drainIterFollowup]
  rw [h]
  simp only
  rw [if_neg (by rw [hns]; exact Bool.false_ne_true), if_pos (by trivial)]

/-- A successful drain iteration on a queue whose head is fresh delivers
exactly that head. -/
lemma drainIter_ok_sends {q : QueueState} {now : Int} {next : Item} {rest : List Item}
    (h : q.items = next :: rest)
    (hns : isStaleItem q next now = false) :
    (drainIterFollowup q now true).2.1 = [next] := by
  have hns2 : isStaleItem (dropStaleItems q now) next now = false := by
    rw [isStale_congr (maxAge_dropStale q now) next now]
    exact hns
  obtain ⟨rest2, hq1⟩ : ∃ rest2, (dropStaleItems q now).items = next :: rest2 := by
    unfold dropStaleItems
    by_cases hle : q.maxAgeMs ≤ 0
    · rw [if_pos hle]
      exact ⟨rest, h⟩
    · rw [if_neg hle]
      refine ⟨rest.filter fun item => ¬ isStaleItem q item now, ?_⟩
      simp only
      rw [h, List.filter_cons,
        if_pos (decide_eq_true (by rw [hns]; exact Bool.false_ne_true))]
  rw [drainIter_ok_eq hq1 hns2]

end Announce

/-- C8: when the announce queue's `send` rejects during a drain, the
item being delivered is not shifted out of the queue, `lastEnqueuedAt`
is set to `now` so the debounce re-applies, the loop exits and
`draining` is cleared (so the finally clause reschedules while items
remain); a later successful iteration re-sends exactly the same item,
and across the failed and retried attempts each attempt makes exactly
one send call of that item, so no queued item is lost and total sends
equal total attempts. -/
theorem claim_C8_announce_retry :
    ∀ (q : Announce.QueueState) (now : Int) (next : Announce.Item)
      (rest : List Announce.Item),
      (Announce.dropStaleItems q now).items = next :: rest →
      Announce.isStaleItem (Announce.dropStaleItems q now) next now = false →
      ((Announce.drainIterFollowup q now false).1.items = next :: rest
        ∧ (Announce.drainIterFollowup q now false).1.lastEnqueuedAt = now
        ∧ (Announce.drainIterFollowup q now false).2.1 = [next]
        ∧ (Announce.drainIterFollowup q now false).2.2 = false
        ∧ (Announce.drainIterFollowup q now false).1.draining = false)
      ∧ (∀ now2 : Int,
          Announce.isStaleItem (Announce.drainIterFollowup q now false).1 next now2 = false →
          (Announce.drainIterFollowup (Announce.drainIterFollowup q now false).1
            now2 true).2.1 = [next])
      ∧ (Announce.drainRunFollowup q [(now, false), (now, true)]).2 = [next, next] := by
  intro q now next rest h hns
  have hf := Announce.drainIter_fail_eq h hns
  have hsucc : ∀ now2 : Int,
      Announce.isStaleItem (Announce.drainIterFollowup q now false).1 next now2 = false →
      (Announce.drainIterFollowup (Announce.drainIterFollowup q now false).1
        now2 true).2.1 = [next] := by
    intro now2 hns2
    have hitems : (Announce.drainIterFollowup q now false).1.items = next :: rest := by
      rw [hf]
    exact Announce.drainIter_ok_sends hitems hns2
  refine ⟨⟨by rw [hf], by rw [hf], by rw [hf], by rw [hf], by rw [hf]⟩, hsucc, ?_⟩
  have hm : (Announce.drainIterFollowup q now false).1.maxAgeMs
      = (Announce.dropStaleItems q now).maxAgeMs := by
    rw [hf]
  have hns3 : Announce.isStaleItem (Announce.drainIterFollowup q now false).1 next now
      = false := by
    rw [Announce.isStale_congr hm next now]
    exact hns
  have h2 := hsucc now hns3
  simp only [Announce.drainRunFollowup]
  rw [hf] at h2
  rw [hf, h2]
  rfl

/-- Concrete run of C8: a queue with one fresh item whose first send
rejects keeps the item, records `lastEnqueuedAt`, exits the loop with
`draining` cleared, and the failed-then-retried run calls `send` twice
with that same item. -/
theorem claim_C8_announce_retry_witness :
    ((Announce.drainIterFollowup
        ⟨[⟨none, "subagent completed", none, 50, "sk", none, false⟩],
         false, 0, .followup, 0, 20, 0, [], 600000⟩ 100 false).1.items
        = [⟨none, "subagent completed", none, 50, "sk", none, false⟩]
      ∧ (Announce.drainIterFollowup
        ⟨[⟨none, "subagent completed", none, 50, "sk", none, false⟩],
         false, 0, .followup, 0, 20, 0, [], 600000⟩ 100 false).1.lastEnqueuedAt = 100
      ∧ (Announce.drainIterFollowup
        ⟨[⟨none, "subagent completed", none, 50, "sk", none, false⟩],
         false, 0, .followup, 0, 20, 0, [], 600000⟩ 100 false).2.1
        = [⟨none, "subagent completed", none, 50, "sk", none, false⟩]
      ∧ (Announce.drainIterFollowup
        ⟨[⟨none, "subagent completed", none, 50, "sk", none, false⟩],
         false, 0, .followup, 0, 20, 0, [], 600000⟩ 100 false).2.2 = false
      ∧ (Announce.drainIterFollowup
        ⟨[⟨none, "subagent completed", none, 50, "sk", none, false⟩],
         false, 0, .followup, 0, 20, 0, [], 600000⟩ 100 false).1.draining = false)
    ∧ (Announce.drainRunFollowup
        ⟨[⟨none, "subagent completed", none, 50, "sk", none, false⟩],
         false, 0, .followup, 0, 20, 0, [], 600000⟩ [(100, false), (100, true)]).2
        = [⟨none, "subagent completed", none, 50, "sk", none, false⟩,
           ⟨none, "subagent completed", none, 50, "sk", none, false⟩] :=
  ⟨(claim_C8_announce_retry
      ⟨[⟨none, "subagent completed", none, 50, "sk", none, false⟩],
       false, 0, .followup, 0, 20, 0, [], 600000⟩ 100
      ⟨none, "subagent completed", none, 50, "sk", none, false⟩ []
      (by decide) (by decide)).1,
   (claim_C8_announce_retry
      ⟨[⟨none, "subagent completed", none, 50, "sk", none, false⟩],
       false, 0, .followup, 0, 20, 0, [], 600000⟩ 100
      ⟨none, "subagent completed", none, 50, "sk", none, false⟩ []
      (by decide) (by decide)).2.2⟩
